import Mathlib

/-
Verification of the exam-scheduling core (backend/optimization/scheduler.py)
against its natural-language specification.

Times are modelled as minutes since midnight (a Nat), dates as day indices
(a Nat), durations in minutes.  PostgreSQL adds an interval to a value of
type time modulo 24 hours, so the end time computed by the SQL availability
queries is (start + duration) % 1440; the Python cursor arithmetic
(datetime.combine(date, t) + timedelta(hours=2)).time() is likewise
(t + 120) % 1440 with the date component dropped, and
current_time.hour >= 18 is t / 60 >= 18, i.e. 1080 <= t.
The booking store's insert (which may be rejected by the store's own
integrity constraints) is modelled by an oracle parameter.
-/

namespace Sched

/-- A row of the examen table: date, start time, duration, module,
professor and room references. -/
structure Exam where
  date : Nat
  heureDebut : Nat
  dureeMinutes : Nat
  moduleId : Nat
  professeurId : Nat
  salleId : Nat
deriving DecidableEq

/-- A row produced by the modules-without-exams query of generate_schedule:
module id, name, formation, owning department and registered student count. -/
structure ModuleRow where
  moduleId : Nat
  nom : String
  formationId : Nat
  departementId : Nat
  studentCount : Nat
deriving DecidableEq

/-- A row of the professeur table. -/
structure Prof where
  id : Nat
  nom : String
  departementId : Nat
deriving DecidableEq

/-- A row of the salle table. -/
structure Salle where
  id : Nat
  nom : String
  capacite : Nat
deriving DecidableEq

/-- End of a time interval as PostgreSQL computes it for the type time:
time plus interval wraps modulo 24 hours. -/
def wrapEnd (s dur : Nat) : Nat := (s + dur) % 1440

/-- The exclusion condition of the professor availability subquery:
professor pid is busy at slot (d, t) of the given duration iff some exam
row of that professor on that date satisfies the query's two comparisons,
whose end times are computed with PostgreSQL time arithmetic. -/
def busyProf (store : List Exam) (d t dur pid : Nat) : Bool :=
  store.any fun e =>
    decide (e.date = d ∧ e.professeurId = pid ∧
      t < wrapEnd e.heureDebut e.dureeMinutes ∧ e.heureDebut < wrapEnd t dur)

/-- The exclusion condition of the room availability subquery, identical in
shape to the professor one but over salle_id. -/
def busySalle (store : List Exam) (d t dur sid : Nat) : Bool :=
  store.any fun e =>
    decide (e.date = d ∧ e.salleId = sid ∧
      t < wrapEnd e.heureDebut e.dureeMinutes ∧ e.heureDebut < wrapEnd t dur)

/-- Strict lexicographic comparison on a pair of Nat sort keys, used to model
ORDER BY key1, key2 LIMIT 1. -/
def ltKey (u v : Nat × Nat) : Bool :=
  decide (u.1 < v.1 ∨ (u.1 = v.1 ∧ u.2 < v.2))

/-- Non-strict lexicographic order on sort keys. -/
def keyLe (u v : Nat × Nat) : Prop := u.1 < v.1 ∨ (u.1 = v.1 ∧ u.2 ≤ v.2)

/-- ORDER BY (lexicographic key) ASC LIMIT 1 over a candidate list: an
element with minimal key (the first such element when keys tie, which SQL
leaves unspecified), or none when the list is empty. -/
def pickMinKey {α : Type} (key : α → Nat × Nat) : List α → Option α
  | [] => none
  | a :: as => some (as.foldl (fun b x => if ltKey (key x) (key b) then x else b) a)

/-- Sort key of the professor query:
CASE WHEN p.departement_id = dept THEN 0 ELSE 1 END, then p.id. -/
def profKey (dept : Nat) (p : Prof) : Nat × Nat :=
  (if p.departementId = dept then 0 else 1, p.id)

/-- The professor query of generate_schedule: among professors not excluded
by the availability subquery, order by department preference then id and
take the first. -/
def findProf (store : List Exam) (d t dur dept : Nat) (profs : List Prof) : Option Prof :=
  pickMinKey (profKey dept) (profs.filter fun p => ! busyProf store d t dur p.id)

/-- Sort key of the room query: ORDER BY s.capacite ASC. -/
def salleKey (s : Salle) : Nat × Nat := (s.capacite, 0)

/-- The room query of generate_schedule: among rooms of sufficient capacity
not excluded by the availability subquery, order by capacity ascending and
take the first. -/
def findSalle (store : List Exam) (d t dur cap : Nat) (salles : List Salle) : Option Salle :=
  pickMinKey salleKey (salles.filter fun s => decide (cap ≤ s.capacite) && ! busySalle store d t dur s.id)

/-- Cursor state of the run: current date, current time of day in minutes,
and the count of exams placed on the current date (exams_today). -/
structure Cursor where
  date : Nat
  time : Nat
  examsToday : Nat
deriving DecidableEq

/-- The slot advance performed in the no-professor, no-room and rejected
insert branches: add two hours to the time of day (PostgreSQL-free Python
arithmetic on datetime.time, which wraps modulo 24 hours and drops the
date); if the resulting hour is 18 or later, move to the next date at the
starting time and reset the daily counter, otherwise keep the date and the
daily counter. -/
def advanceFail (startTime : Nat) (c : Cursor) : Cursor :=
  if 1080 ≤ (c.time + 120) % 1440 then
    Cursor.mk (c.date + 1) startTime 0
  else
    Cursor.mk c.date ((c.time + 120) % 1440) c.examsToday

/-- The slot advance performed after a successful insert: identical time
arithmetic, but when the day does not roll over the daily counter is
incremented instead of kept. -/
def advanceSuccess (startTime : Nat) (c : Cursor) : Cursor :=
  if 1080 ≤ (c.time + 120) % 1440 then
    Cursor.mk (c.date + 1) startTime 0
  else
    Cursor.mk c.date ((c.time + 120) % 1440) (c.examsToday + 1)

/-- Configuration of a run: the four parameters of generate_schedule plus
the resource catalog read by its queries. -/
structure Config where
  startDate : Nat
  startTime : Nat
  durationMinutes : Nat
  timeSlotsPerDay : Nat
  profs : List Prof
  salles : List Salle
deriving DecidableEq

/-- The booking store's insert, which may be rejected by the store's own
integrity constraints: given the visible store contents and the candidate
row, none means the insert succeeds and some r means it is rejected with
reason r (the text of the raised exception). -/
def InsertOracle : Type := List Exam → Exam → Option String

/-- Two-digit zero padding for time display. -/
def pad2 (n : Nat) : String := if n < 10 then "0" ++ toString n else toString n

/-- Display of a time of day as HH:MM, as current_time.strftime does. -/
def fmtTime (t : Nat) : String := pad2 (t / 60) ++ ":" ++ pad2 (t % 60)

/-- The success detail message recorded after an insert succeeds. -/
def successMsg (nom : String) (d t : Nat) (profNom salleNom : String) : String :=
  "Module \x27" ++ nom ++ "\x27 programmé le " ++ toString d ++ " à " ++ fmtTime t
    ++ " avec " ++ profNom ++ " en " ++ salleNom

/-- The generic no-slot failure text. -/
def noSlotMsg : String := "Aucun créneau disponible après plusieurs tentatives"

/-- The failure detail message recorded when the attempt loop exhausts,
using Python truthiness for error_message or the generic text: both None
and the empty string fall back to the generic no-slot text. -/
def failMsg (nom : String) (err : Option String) : String :=
  "Module \x27" ++ nom ++ "\x27 n\x27a pas pu être programmé: "
    ++ (match err with
        | none => noSlotMsg
        | some r => if r = "" then noSlotMsg else r)

/-- State threaded through one module's attempt loop: the shared cursor, the
rows inserted by this run so far, and (as instrumentation) the list of
(date, time) slots at which availability was queried. -/
structure InnerSt where
  cursor : Cursor
  inserted : List Exam
  slotTrace : List (Nat × Nat)
deriving DecidableEq

/-- Result of one module's attempt loop: whether it was scheduled, the
success message, the stored error message, the list of insert rejection
reasons seen (instrumentation), the final value of the attempt counter, the
cursor value at which the successful insert happened (instrumentation), and
the final loop state. -/
structure TryOut where
  scheduled : Bool
  okMsg : String
  err : Option String
  rejs : List String
  used : Nat
  placedCursor : Option Cursor
  st : InnerSt
deriving DecidableEq

/-- Outcome of one iteration of the attempt loop. -/
inductive StepRes where
  | done : TryOut → StepRes
  | next : Nat → Option String → List String → InnerSt → StepRes

/-- One iteration of the while loop of generate_schedule: first the daily
cap check (roll to the next day, counting an attempt, without querying
availability); then the professor query, the room query and the insert at
the current slot, each failure advancing the cursor and counting an
attempt; a successful insert finishes the module with one further cursor
advance. -/
def tryStep (cfg : Config) (oracle : InsertOracle) (pre : List Exam) (m : ModuleRow)
    (used : Nat) (err : Option String) (rejs : List String) (st : InnerSt) : StepRes :=
  if cfg.timeSlotsPerDay ≤ st.cursor.examsToday then
    StepRes.next (used + 1) err rejs
      (InnerSt.mk (Cursor.mk (st.cursor.date + 1) cfg.startTime 0) st.inserted st.slotTrace)
  else
    match findProf (pre ++ st.inserted) st.cursor.date st.cursor.time cfg.durationMinutes
        m.departementId cfg.profs with
    | none => StepRes.next (used + 1) err rejs
        (InnerSt.mk (advanceFail cfg.startTime st.cursor) st.inserted
          (st.slotTrace ++ [(st.cursor.date, st.cursor.time)]))
    | some p =>
      match findSalle (pre ++ st.inserted) st.cursor.date st.cursor.time cfg.durationMinutes
          m.studentCount cfg.salles with
      | none => StepRes.next (used + 1) err rejs
          (InnerSt.mk (advanceFail cfg.startTime st.cursor) st.inserted
            (st.slotTrace ++ [(st.cursor.date, st.cursor.time)]))
      | some s =>
        match oracle (pre ++ st.inserted)
            (Exam.mk st.cursor.date st.cursor.time cfg.durationMinutes m.moduleId p.id s.id) with
        | some r => StepRes.next (used + 1) (some r) (rejs ++ [r])
            (InnerSt.mk (advanceFail cfg.startTime st.cursor) st.inserted
              (st.slotTrace ++ [(st.cursor.date, st.cursor.time)]))
        | none =>
          StepRes.done (TryOut.mk true
            (successMsg m.nom st.cursor.date st.cursor.time p.nom s.nom) err rejs used
            (some st.cursor)
            (InnerSt.mk (advanceSuccess cfg.startTime st.cursor)
              (st.inserted ++
                [Exam.mk st.cursor.date st.cursor.time cfg.durationMinutes m.moduleId p.id s.id])
              (st.slotTrace ++ [(st.cursor.date, st.cursor.time)])))

/-- The bounded attempt loop of generate_schedule: while not scheduled and
attempt < max_attempts.  The fuel is max_attempts minus the attempt counter
(10 at entry, since max_attempts is hard-coded to 10); every non-success
iteration consumes one unit. -/
def tryModule (cfg : Config) (oracle : InsertOracle) (pre : List Exam) (m : ModuleRow) :
    Nat → Nat → Option String → List String → InnerSt → TryOut
  | 0, used, err, rejs, st => TryOut.mk false "" err rejs used none st
  | fuel + 1, used, err, rejs, st =>
    match tryStep cfg oracle pre m used err rejs st with
    | StepRes.done o => o
    | StepRes.next u e r s2 => tryModule cfg oracle pre m fuel u e r s2

/-- Aggregate state of a run: cursor, pre-existing store rows, rows inserted
by this run (the pending rows of the surrounding transaction), the three
result counters, the detail records, and the instrumentation traces. -/
structure RunState where
  cursor : Cursor
  preStore : List Exam
  inserted : List Exam
  success : Nat
  failed : Nat
  total : Nat
  details : List (Nat × String × String)
  slotTrace : List (Nat × Nat)
  attemptCounts : List Nat

/-- Recording of one module's outcome: a success increments the success
counter and appends the success detail built at insert time; a failure
increments the failed counter and appends the failure detail built from the
stored error message. -/
def recordOutcome (m : ModuleRow) (st : RunState) (r : TryOut) : RunState :=
  if r.scheduled then
    { st with cursor := r.st.cursor, inserted := r.st.inserted, slotTrace := r.st.slotTrace,
              success := st.success + 1,
              details := st.details ++ [(m.moduleId, "success", r.okMsg)],
              attemptCounts := st.attemptCounts ++ [r.used] }
  else
    { st with cursor := r.st.cursor, inserted := r.st.inserted, slotTrace := r.st.slotTrace,
              failed := st.failed + 1,
              details := st.details ++ [(m.moduleId, "failed", failMsg m.nom r.err)],
              attemptCounts := st.attemptCounts ++ [r.used] }

/-- Processing of one module: run its attempt loop (attempt counter 0, no
stored error) from the shared cursor and record the outcome. -/
def stepModule (cfg : Config) (oracle : InsertOracle) (m : ModuleRow) (st : RunState) : RunState :=
  recordOutcome m st
    (tryModule cfg oracle st.preStore m 10 0 none [] (InnerSt.mk st.cursor st.inserted st.slotTrace))

/-- The driver loop of generate_schedule over the module list, carrying the
shared cursor and the run's inserts from module to module. -/
def processModules (cfg : Config) (oracle : InsertOracle) : List ModuleRow → RunState → RunState
  | [], st => st
  | m :: rest, st => processModules cfg oracle rest (stepModule cfg oracle m st)

/-- Initial run state: cursor at the configured start, total set to the
number of modules returned by the task query, all counters zero. -/
def initState (cfg : Config) (init : List Exam) (tot : Nat) : RunState :=
  RunState.mk (Cursor.mk cfg.startDate cfg.startTime 0) init [] 0 0 tot [] [] []

/-- The whole of generate_schedule on a store whose examen table initially
holds init: process the modules in the order the task query returns them. -/
def generateSchedule (cfg : Config) (oracle : InsertOracle) (modules : List ModuleRow)
    (init : List Exam) : RunState :=
  processModules cfg oracle modules (initState cfg init modules.length)

/-- The durable store after a normal completion: generate_schedule runs on a
psycopg2 connection without autocommit (backend/database/connection.py sets
none), so every insert of the run belongs to one transaction, published by
the single conn.commit() at the end of the run. -/
def generateScheduleCommitted (cfg : Config) (oracle : InsertOracle) (modules : List ModuleRow)
    (init : List Exam) : List Exam :=
  (generateSchedule cfg oracle modules init).preStore ++
    (generateSchedule cfg oracle modules init).inserted

/-- The durable store after a run-level fault that aborts the run once the
first k modules have been processed: the outer exception handler of
generate_schedule calls conn.rollback() before re-raising, which discards
every insert of the transaction, leaving only the pre-existing rows. -/
def generateScheduleFaulted (cfg : Config) (oracle : InsertOracle) (modules : List ModuleRow)
    (init : List Exam) (k : Nat) : List Exam :=
  (processModules cfg oracle (modules.take k) (initState cfg init modules.length)).preStore

/-- Outcome of one iteration of the while loop under the real psycopg2
transaction semantics: continue the loop (with the attempt counter, stored
error, rejection trace, loop state and the transaction-aborted flag), a
successful placement, or an InFailedSqlTransaction raised by an
availability query issued while the transaction is aborted — that
exception is raised outside the inner try and escapes the per-task loop. -/
inductive PgStep where
  | next : Nat → Option String → List String → InnerSt → Bool → PgStep
  | placed : TryOut → PgStep
  | fault : PgStep
deriving DecidableEq

/-- One iteration of the while loop of generate_schedule under the real
transaction semantics of the connection (connection.py sets no autocommit,
and the inner except of a rejected INSERT performs no rollback and uses no
savepoint).  The daily-cap branch touches no database state, so it runs
even with an aborted transaction.  Otherwise, if the transaction is
aborted, the professor query raises InFailedSqlTransaction (fault).  A
rejected INSERT is caught by the inner except — the reason is stored, the
cursor advanced, the attempt counted — but it leaves the transaction in
the aborted state. -/
def tryStepPg (cfg : Config) (oracle : InsertOracle) (pre : List Exam) (m : ModuleRow)
    (used : Nat) (err : Option String) (rejs : List String) (st : InnerSt)
    (aborted : Bool) : PgStep :=
  if cfg.timeSlotsPerDay ≤ st.cursor.examsToday then
    PgStep.next (used + 1) err rejs
      (InnerSt.mk (Cursor.mk (st.cursor.date + 1) cfg.startTime 0) st.inserted st.slotTrace)
      aborted
  else if aborted then
    PgStep.fault
  else
    match findProf (pre ++ st.inserted) st.cursor.date st.cursor.time cfg.durationMinutes
        m.departementId cfg.profs with
    | none => PgStep.next (used + 1) err rejs
        (InnerSt.mk (advanceFail cfg.startTime st.cursor) st.inserted
          (st.slotTrace ++ [(st.cursor.date, st.cursor.time)])) false
    | some p =>
      match findSalle (pre ++ st.inserted) st.cursor.date st.cursor.time cfg.durationMinutes
          m.studentCount cfg.salles with
      | none => PgStep.next (used + 1) err rejs
          (InnerSt.mk (advanceFail cfg.startTime st.cursor) st.inserted
            (st.slotTrace ++ [(st.cursor.date, st.cursor.time)])) false
      | some s =>
        match oracle (pre ++ st.inserted)
            (Exam.mk st.cursor.date st.cursor.time cfg.durationMinutes m.moduleId p.id s.id) with
        | some r => PgStep.next (used + 1) (some r) (rejs ++ [r])
            (InnerSt.mk (advanceFail cfg.startTime st.cursor) st.inserted
              (st.slotTrace ++ [(st.cursor.date, st.cursor.time)])) true
        | none =>
          PgStep.placed (TryOut.mk true
            (successMsg m.nom st.cursor.date st.cursor.time p.nom s.nom) err rejs used
            (some st.cursor)
            (InnerSt.mk (advanceSuccess cfg.startTime st.cursor)
              (st.inserted ++
                [Exam.mk st.cursor.date st.cursor.time cfg.durationMinutes m.moduleId p.id s.id])
              (st.slotTrace ++ [(st.cursor.date, st.cursor.time)])))

/-- Outcome of one module's attempt loop under the real transaction
semantics: the loop finished (with the transaction-aborted flag it leaves
behind), or an InFailedSqlTransaction escaped the loop. -/
inductive PgTry where
  | finished : TryOut → Bool → PgTry
  | fault : PgTry
deriving DecidableEq

/-- The bounded attempt loop under the real transaction semantics.  A
placement can only happen with a healthy transaction, so it leaves the
flag false. -/
def tryModulePg (cfg : Config) (oracle : InsertOracle) (pre : List Exam) (m : ModuleRow) :
    Nat → Nat → Option String → List String → InnerSt → Bool → PgTry
  | 0, used, err, rejs, st, ab => PgTry.finished (TryOut.mk false "" err rejs used none st) ab
  | fuel + 1, used, err, rejs, st, ab =>
    match tryStepPg cfg oracle pre m used err rejs st ab with
    | PgStep.fault => PgTry.fault
    | PgStep.placed o => PgTry.finished o false
    | PgStep.next u e r s2 ab2 => tryModulePg cfg oracle pre m fuel u e r s2 ab2

/-- The driver loop under the real transaction semantics: none models the
run aborting because an InFailedSqlTransaction escaped a per-task loop
into the run-level handler. -/
def processModulesPg (cfg : Config) (oracle : InsertOracle) :
    List ModuleRow → RunState → Bool → Option (RunState × Bool)
  | [], st, ab => some (st, ab)
  | m :: rest, st, ab =>
    match tryModulePg cfg oracle st.preStore m 10 0 none []
        (InnerSt.mk st.cursor st.inserted st.slotTrace) ab with
    | PgTry.fault => none
    | PgTry.finished r ab2 => processModulesPg cfg oracle rest (recordOutcome m st r) ab2

/-- generate_schedule under the real transaction semantics: none models the
run aborting (the outer handler catches the InFailedSqlTransaction, rolls
back and re-raises, so the caller gets a run-level error, not a result). -/
def generateSchedulePg (cfg : Config) (oracle : InsertOracle) (modules : List ModuleRow)
    (init : List Exam) : Option RunState :=
  match processModulesPg cfg oracle modules (initState cfg init modules.length) false with
  | none => none
  | some (st, _) => some st

/-- The durable store under the real transaction semantics: a run-level
fault rolls back; a run that completes with the transaction still aborted
is rolled back by the server when conn.commit() issues COMMIT (PostgreSQL
answers with ROLLBACK in an aborted transaction); only a run that
completes with a healthy transaction commits its inserts. -/
def durableStorePg (cfg : Config) (oracle : InsertOracle) (modules : List ModuleRow)
    (init : List Exam) : List Exam :=
  match processModulesPg cfg oracle modules (initState cfg init modules.length) false with
  | none => init
  | some (_, true) => init
  | some (st, false) => st.preStore ++ st.inserted

/-- Overlap of the half-open real-time intervals of two exam rows, without
the modulo-24h truncation: the property the specification asserts. -/
def intervalsOverlap (x b : Exam) : Prop :=
  b.heureDebut < x.heureDebut + x.dureeMinutes ∧ x.heureDebut < b.heureDebut + b.dureeMinutes

/-- An exam row whose interval ends strictly before midnight, so that the
PostgreSQL time arithmetic of the availability queries is exact for it. -/
def noWrap (x : Exam) : Prop := x.heureDebut + x.dureeMinutes < 1440

/-- Strict lexicographic order on (date, time) cursor positions. -/
def slotLt (a b : Nat × Nat) : Prop := a.1 < b.1 ∨ (a.1 = b.1 ∧ a.2 < b.2)

instance : DecidableRel slotLt := fun a b =>
  inferInstanceAs (Decidable (a.1 < b.1 ∨ (a.1 = b.1 ∧ a.2 < b.2)))

instance : ∀ x b, Decidable (intervalsOverlap x b) := fun x b =>
  inferInstanceAs (Decidable (_ ∧ _))

/-- Record that booking b passed the two availability subqueries against row
x (which was in the store when b was inserted): if x shares b's date and
professor (resp. room), the wrapped-end overlap test of the subquery was
false for x. -/
def checkedAgainst (x b : Exam) : Prop :=
  x.date = b.date →
    (x.professeurId = b.professeurId →
      ¬(b.heureDebut < wrapEnd x.heureDebut x.dureeMinutes ∧
        x.heureDebut < wrapEnd b.heureDebut b.dureeMinutes)) ∧
    (x.salleId = b.salleId →
      ¬(b.heureDebut < wrapEnd x.heureDebut x.dureeMinutes ∧
        x.heureDebut < wrapEnd b.heureDebut b.dureeMinutes))

/-- The non-overlap property the specification asserts of a pair of
bookings, restricted to intervals ending strictly before midnight: on a
shared date, if both interval ends are exact (no wrap), a shared professor
or a shared room forces disjoint half-open intervals. -/
def safePair (x b : Exam) : Prop :=
  x.date = b.date → noWrap x → noWrap b →
    (x.professeurId = b.professeurId → ¬ intervalsOverlap x b) ∧
    (x.salleId = b.salleId → ¬ intervalsOverlap x b)

/-- Invariant of the run's insert list: every inserted row was
availability-checked against every pre-existing row and against every row
inserted before it. -/
def okIns (pre ins : List Exam) : Prop :=
  (∀ b ∈ ins, ∀ x ∈ pre, checkedAgainst x b) ∧ List.Pairwise checkedAgainst ins

/-- Invariant tying the slot trace to the cursor: the trace is strictly
increasing and every traced slot is strictly below the current cursor
position. -/
def traceInv (c : Cursor) (tr : List (Nat × Nat)) : Prop :=
  List.Chain' slotLt tr ∧ ∀ x ∈ tr, slotLt x (c.date, c.time)

/-- Test professor: id 1, department 5. -/
def profP : Prof := Prof.mk 1 "P" 5

/-- Test room: id 1, capacity 100. -/
def salleS : Salle := Salle.mk 1 "S" 100

/-- Test module: id 1, department 5, headcount 10. -/
def moduleM : ModuleRow := ModuleRow.mk 1 "M" 1 5 10

/-- Second test module: id 2, department 5, headcount 10. -/
def moduleN : ModuleRow := ModuleRow.mk 2 "N" 1 5 10

/-- Store oracle that accepts every insert. -/
def oracleOk : InsertOracle := fun _ _ => none

/-- Store oracle that rejects every insert with a fixed reason. -/
def oracleRej : InsertOracle := fun _ _ => some "conflit"

/-- Configuration starting 09:00, 120-minute exams, cap 4. -/
def cfgMorning : Config := Config.mk 0 540 120 4 [profP] [salleS]

/-- Configuration starting 17:00: the post-success advance rolls the day. -/
def cfgEvening : Config := Config.mk 0 1020 120 4 [profP] [salleS]

/-- Configuration starting 23:30 with 60-minute exams. -/
def cfgLate : Config := Config.mk 0 1410 60 4 [profP] [salleS]

/-- Configuration starting 23:00 with an empty examiner catalog. -/
def cfgNoProfs : Config := Config.mk 0 1380 120 4 [] [salleS]

/-- Configuration starting 10:00 with 60-minute exams. -/
def cfgTen : Config := Config.mk 0 600 60 4 [profP] [salleS]

/-- A pre-existing booking from 23:00 for 120 minutes, crossing midnight. -/
def examLate : Exam := Exam.mk 0 1380 120 99 1 1

/-- A pre-existing booking from 09:00 for 60 minutes, ending exactly at the
10:00 candidate slot. -/
def examMorning : Exam := Exam.mk 0 540 60 7 1 1

end Sched

namespace Sched

/-- Reflexivity of the lexicographic key order. -/
theorem keyLe_refl (u : Nat × Nat) : keyLe u u := Or.inr ⟨rfl, Nat.le_refl _⟩

/-- Transitivity of the lexicographic key order. -/
theorem keyLe_trans {u v w : Nat × Nat} (h1 : keyLe u v) (h2 : keyLe v w) : keyLe u w := by
  unfold keyLe at *
  omega

/-- A failed strict comparison yields the reverse non-strict order. -/
theorem ltKey_false {u v : Nat × Nat} (h : ltKey u v = false) : keyLe v u := by
  unfold ltKey at h
  unfold keyLe
  simp only [decide_eq_false_iff_not] at h
  omega

/-- A successful strict comparison yields the non-strict order. -/
theorem ltKey_true {u v : Nat × Nat} (h : ltKey u v = true) : keyLe u v := by
  unfold ltKey at h
  unfold keyLe
  simp only [decide_eq_true_eq] at h
  omega

/-- A fold over a binary choice function stays among the inputs. -/
theorem foldl_choice {α : Type} (f : α → α → α) (hf : ∀ b x, f b x = b ∨ f b x = x) :
    ∀ (l : List α) (a : α), l.foldl f a = a ∨ l.foldl f a ∈ l := by
  intro l
  induction l with
  | nil => intro a; exact Or.inl rfl
  | cons x xs ih =>
    intro a
    rw [List.foldl_cons]
    rcases ih (f a x) with h | h
    · rcases hf a x with h2 | h2
      · exact Or.inl (by rw [h, h2])
      · exact Or.inr (by rw [h, h2]; exact List.mem_cons_self x xs)
    · exact Or.inr (List.mem_cons_of_mem x h)

/-- The minimum fold of pickMinKey is below its seed and every list element. -/
theorem foldl_pick_le {α : Type} (key : α → Nat × Nat) :
    ∀ (l : List α) (a : α),
      keyLe (key (l.foldl (fun b x => if ltKey (key x) (key b) then x else b) a)) (key a) ∧
      ∀ b ∈ l,
        keyLe (key (l.foldl (fun b x => if ltKey (key x) (key b) then x else b) a)) (key b) := by
  intro l
  induction l with
  | nil =>
    intro a
    refine ⟨keyLe_refl _, ?_⟩
    intro b hb
    exact (List.not_mem_nil b hb).elim
  | cons x xs ih =>
    intro a
    rw [List.foldl_cons]
    by_cases hlt : ltKey (key x) (key a) = true
    · rw [if_pos hlt]
      obtain ⟨h1, h2⟩ := ih x
      refine ⟨keyLe_trans h1 (ltKey_true hlt), ?_⟩
      intro b hb
      rcases List.mem_cons.mp hb with rfl | hb2
      · exact h1
      · exact h2 b hb2
    · rw [if_neg hlt]
      obtain ⟨h1, h2⟩ := ih a
      have hlt' : ltKey (key x) (key a) = false := by
        revert hlt
        cases ltKey (key x) (key a) <;> simp
      refine ⟨h1, ?_⟩
      intro b hb
      rcases List.mem_cons.mp hb with rfl | hb2
      · exact keyLe_trans h1 (ltKey_false hlt')
      · exact h2 b hb2

/-- pickMinKey returns none exactly on the empty candidate list. -/
theorem pickMinKey_eq_none {α : Type} (key : α → Nat × Nat) (l : List α) :
    pickMinKey key l = none ↔ l = [] := by
  cases l <;> simp [pickMinKey]

/-- pickMinKey returns an element of the candidate list. -/
theorem pickMinKey_mem {α : Type} {key : α → Nat × Nat} {l : List α} {a : α}
    (h : pickMinKey key l = some a) : a ∈ l := by
  cases l with
  | nil => simp [pickMinKey] at h
  | cons x xs =>
    simp only [pickMinKey, Option.some.injEq] at h
    have hf : ∀ b y, (fun b y => if ltKey (key y) (key b) then y else b) b y = b ∨
        (fun b y => if ltKey (key y) (key b) then y else b) b y = y := by
      intro b y
      by_cases hc : ltKey (key y) (key b) = true
      · exact Or.inr (by simp [hc])
      · exact Or.inl (by simp [Bool.of_not_eq_true hc])
    rcases foldl_choice _ hf xs x with h2 | h2
    · rw [← h, h2]; exact List.mem_cons_self x xs
    · rw [← h]; exact List.mem_cons_of_mem x h2

/-- pickMinKey returns an element whose key is minimal. -/
theorem pickMinKey_le {α : Type} {key : α → Nat × Nat} {l : List α} {a : α}
    (h : pickMinKey key l = some a) : ∀ b ∈ l, keyLe (key a) (key b) := by
  cases l with
  | nil => simp [pickMinKey] at h
  | cons x xs =>
    simp only [pickMinKey, Option.some.injEq] at h
    obtain ⟨h1, h2⟩ := foldl_pick_le key xs x
    intro b hb
    rcases List.mem_cons.mp hb with rfl | hb2
    · rw [← h]; exact h1
    · rw [← h]; exact h2 b hb2

/-- Unfolding of the professor exclusion condition. -/
theorem busyProf_true_iff {store : List Exam} {d t dur pid : Nat} :
    busyProf store d t dur pid = true ↔
      ∃ e ∈ store, e.date = d ∧ e.professeurId = pid ∧
        t < wrapEnd e.heureDebut e.dureeMinutes ∧ e.heureDebut < wrapEnd t dur := by
  simp [busyProf, List.any_eq_true]

/-- Unfolding of the negated professor exclusion condition. -/
theorem busyProf_false_iff {store : List Exam} {d t dur pid : Nat} :
    busyProf store d t dur pid = false ↔
      ∀ e ∈ store, e.date = d → e.professeurId = pid →
        ¬(t < wrapEnd e.heureDebut e.dureeMinutes ∧ e.heureDebut < wrapEnd t dur) := by
  rw [← Bool.not_eq_true, busyProf_true_iff]
  constructor
  · intro h e he hd hp hov
    exact h ⟨e, he, hd, hp, hov.1, hov.2⟩
  · rintro h ⟨e, he, hd, hp, h1, h2⟩
    exact h e he hd hp ⟨h1, h2⟩

/-- Unfolding of the room exclusion condition. -/
theorem busySalle_true_iff {store : List Exam} {d t dur sid : Nat} :
    busySalle store d t dur sid = true ↔
      ∃ e ∈ store, e.date = d ∧ e.salleId = sid ∧
        t < wrapEnd e.heureDebut e.dureeMinutes ∧ e.heureDebut < wrapEnd t dur := by
  simp [busySalle, List.any_eq_true]

/-- Unfolding of the negated room exclusion condition. -/
theorem busySalle_false_iff {store : List Exam} {d t dur sid : Nat} :
    busySalle store d t dur sid = false ↔
      ∀ e ∈ store, e.date = d → e.salleId = sid →
        ¬(t < wrapEnd e.heureDebut e.dureeMinutes ∧ e.heureDebut < wrapEnd t dur) := by
  rw [← Bool.not_eq_true, busySalle_true_iff]
  constructor
  · intro h e he hd hp hov
    exact h ⟨e, he, hd, hp, hov.1, hov.2⟩
  · rintro h ⟨e, he, hd, hp, h1, h2⟩
    exact h e he hd hp ⟨h1, h2⟩

/-- A professor returned by the query is a catalog member, not excluded, and
of minimal key among the non-excluded. -/
theorem findProf_some {store : List Exam} {d t dur dept : Nat} {profs : List Prof} {p : Prof}
    (h : findProf store d t dur dept profs = some p) :
    p ∈ profs ∧ busyProf store d t dur p.id = false ∧
      ∀ q ∈ profs, busyProf store d t dur q.id = false →
        keyLe (profKey dept p) (profKey dept q) := by
  unfold findProf at h
  have hm := pickMinKey_mem h
  rw [List.mem_filter] at hm
  refine ⟨hm.1, by simpa using hm.2, ?_⟩
  intro q hq hbq
  exact pickMinKey_le h q (List.mem_filter.mpr ⟨hq, by simp [hbq]⟩)

/-- The professor query returns none exactly when every professor is
excluded by the availability subquery. -/
theorem findProf_none {store : List Exam} {d t dur dept : Nat} {profs : List Prof} :
    findProf store d t dur dept profs = none ↔
      ∀ q ∈ profs, busyProf store d t dur q.id = true := by
  unfold findProf
  rw [pickMinKey_eq_none, List.filter_eq_nil_iff]
  simp

/-- A room returned by the query is a catalog member, of sufficient
capacity, not excluded, and of minimal capacity among such rooms. -/
theorem findSalle_some {store : List Exam} {d t dur cap : Nat} {salles : List Salle} {s : Salle}
    (h : findSalle store d t dur cap salles = some s) :
    s ∈ salles ∧ cap ≤ s.capacite ∧ busySalle store d t dur s.id = false ∧
      ∀ s2 ∈ salles, cap ≤ s2.capacite → busySalle store d t dur s2.id = false →
        s.capacite ≤ s2.capacite := by
  unfold findSalle at h
  have hm := pickMinKey_mem h
  rw [List.mem_filter] at hm
  have hcond := hm.2
  simp only [Bool.and_eq_true, decide_eq_true_eq, Bool.not_eq_true'] at hcond
  refine ⟨hm.1, hcond.1, hcond.2, ?_⟩
  intro s2 hs2 hcap hbusy
  have := pickMinKey_le h s2 (List.mem_filter.mpr ⟨hs2, by simp [hcap, hbusy]⟩)
  unfold keyLe salleKey at this
  omega

/-- The room query returns none exactly when no room both fits the headcount
and passes the availability subquery. -/
theorem findSalle_none {store : List Exam} {d t dur cap : Nat} {salles : List Salle} :
    findSalle store d t dur cap salles = none ↔
      ∀ s2 ∈ salles, ¬(cap ≤ s2.capacite ∧ busySalle store d t dur s2.id = false) := by
  unfold findSalle
  rw [pickMinKey_eq_none, List.filter_eq_nil_iff]
  constructor
  · intro h s2 hs2 hc
    have := h s2 hs2
    simp [hc.1, hc.2] at this
  · intro h s2 hs2
    have hns := h s2 hs2
    intro hc
    simp only [Bool.and_eq_true, decide_eq_true_eq, Bool.not_eq_true'] at hc
    exact hns ⟨hc.1, hc.2⟩

end Sched

namespace Sched

/-- Claim C2 (amended): for every candidate slot (d, t) and exam duration,
the availability check excludes a resource (examiner or room) iff some
existing booking of that resource on date d satisfies
t < start + duration and start < t + candidate duration, PROVIDED the
candidate interval and every matching booking interval end strictly before
midnight (start + duration < 1440 minutes); in particular, under that
proviso a booking ending exactly at t, or starting exactly at
t + duration, does not exclude the resource.  Without the proviso the
claim fails, because PostgreSQL time-plus-interval arithmetic wraps the
end times modulo 24 hours (see the counterexample). -/
theorem spec_C2 (store : List Exam) (d t dur pid sid : Nat)
    (hcand : t + dur < 1440)
    (hp : ∀ e ∈ store, e.date = d → e.professeurId = pid → e.heureDebut + e.dureeMinutes < 1440)
    (hs : ∀ e ∈ store, e.date = d → e.salleId = sid → e.heureDebut + e.dureeMinutes < 1440) :
    (busyProf store d t dur pid = true ↔
      ∃ e ∈ store, e.date = d ∧ e.professeurId = pid ∧
        t < e.heureDebut + e.dureeMinutes ∧ e.heureDebut < t + dur) ∧
    (busySalle store d t dur sid = true ↔
      ∃ e ∈ store, e.date = d ∧ e.salleId = sid ∧
        t < e.heureDebut + e.dureeMinutes ∧ e.heureDebut < t + dur) := by
  have hwc : wrapEnd t dur = t + dur := Nat.mod_eq_of_lt hcand
  constructor
  · rw [busyProf_true_iff]
    constructor
    · rintro ⟨e, he, hd, hpe, h1, h2⟩
      have hw : wrapEnd e.heureDebut e.dureeMinutes = e.heureDebut + e.dureeMinutes :=
        Nat.mod_eq_of_lt (hp e he hd hpe)
      rw [hw] at h1
      rw [hwc] at h2
      exact ⟨e, he, hd, hpe, h1, h2⟩
    · rintro ⟨e, he, hd, hpe, h1, h2⟩
      have hw : wrapEnd e.heureDebut e.dureeMinutes = e.heureDebut + e.dureeMinutes :=
        Nat.mod_eq_of_lt (hp e he hd hpe)
      rw [← hw] at h1
      rw [← hwc] at h2
      exact ⟨e, he, hd, hpe, h1, h2⟩
  · rw [busySalle_true_iff]
    constructor
    · rintro ⟨e, he, hd, hse, h1, h2⟩
      have hw : wrapEnd e.heureDebut e.dureeMinutes = e.heureDebut + e.dureeMinutes :=
        Nat.mod_eq_of_lt (hs e he hd hse)
      rw [hw] at h1
      rw [hwc] at h2
      exact ⟨e, he, hd, hse, h1, h2⟩
    · rintro ⟨e, he, hd, hse, h1, h2⟩
      have hw : wrapEnd e.heureDebut e.dureeMinutes = e.heureDebut + e.dureeMinutes :=
        Nat.mod_eq_of_lt (hs e he hd hse)
      rw [← hw] at h1
      rw [← hwc] at h2
      exact ⟨e, he, hd, hse, h1, h2⟩

/-- Witness for spec_C2 at a concrete non-wrapping instance: a booking at
09:00 for 120 minutes excludes professor 1 and room 1 at candidate slot
10:00 of duration 60, and the iff agrees. -/
theorem spec_C2_witness :
    (busyProf [Exam.mk 0 540 120 9 1 1] 0 600 60 1 = true ↔
      ∃ e ∈ [Exam.mk 0 540 120 9 1 1], e.date = 0 ∧ e.professeurId = 1 ∧
        600 < e.heureDebut + e.dureeMinutes ∧ e.heureDebut < 600 + 60) ∧
    (busySalle [Exam.mk 0 540 120 9 1 1] 0 600 60 1 = true ↔
      ∃ e ∈ [Exam.mk 0 540 120 9 1 1], e.date = 0 ∧ e.salleId = 1 ∧
        600 < e.heureDebut + e.dureeMinutes ∧ e.heureDebut < 600 + 60) :=
  spec_C2 [Exam.mk 0 540 120 9 1 1] 0 600 60 1 1 (by decide)
    (by decide) (by decide)

/-- Counterexample to claim C2 as stated: a booking from 23:00 for 120
minutes (crossing midnight) and a candidate slot 23:30 of 60 minutes truly
overlap, yet the availability check does not exclude the booked professor,
because the booking's end time computed by PostgreSQL time arithmetic wraps
to 01:00. -/
theorem spec_C2_counterexample :
    ¬(busyProf [Exam.mk 0 1380 120 9 1 1] 0 1410 60 1 = true ↔
      ∃ e ∈ [Exam.mk 0 1380 120 9 1 1], e.date = 0 ∧ e.professeurId = 1 ∧
        1410 < e.heureDebut + e.dureeMinutes ∧ e.heureDebut < 1410 + 60) := by
  decide

/-- Claim C3: for every task and candidate slot, the room returned by the
room-selection query is in the catalog, is available at that slot (not
excluded by the availability subquery), has capacity at least the task
headcount, and has minimal capacity among all available rooms of
sufficient capacity; no room is returned exactly when no available room
has sufficient capacity; and in particular for a headcount of 40 with free
rooms of capacities 20 and 50 the capacity-50 room is chosen. -/
theorem spec_C3 (store : List Exam) (d t dur cap : Nat) (salles : List Salle) :
    (∀ s, findSalle store d t dur cap salles = some s →
      s ∈ salles ∧ cap ≤ s.capacite ∧ busySalle store d t dur s.id = false ∧
        ∀ s2 ∈ salles, cap ≤ s2.capacite → busySalle store d t dur s2.id = false →
          s.capacite ≤ s2.capacite) ∧
    (findSalle store d t dur cap salles = none ↔
      ∀ s2 ∈ salles, ¬(cap ≤ s2.capacite ∧ busySalle store d t dur s2.id = false)) ∧
    findSalle [] 0 540 120 40 [Salle.mk 1 "A" 20, Salle.mk 2 "B" 50] = some (Salle.mk 2 "B" 50) := by
  refine ⟨?_, findSalle_none, by decide⟩
  intro s hsome
  exact findSalle_some hsome

/-- Witness for spec_C3 at the Scenario D instance: room B of capacity 50
is returned, fits headcount 40, is available, and is capacity-minimal
among available sufficient rooms. -/
theorem spec_C3_witness :
    Salle.mk 2 "B" 50 ∈ [Salle.mk 1 "A" 20, Salle.mk 2 "B" 50] ∧
    40 ≤ (Salle.mk 2 "B" 50).capacite ∧
    busySalle [] 0 540 120 (Salle.mk 2 "B" 50).id = false ∧
    ∀ s2 ∈ [Salle.mk 1 "A" 20, Salle.mk 2 "B" 50], 40 ≤ s2.capacite →
      busySalle [] 0 540 120 s2.id = false → (Salle.mk 2 "B" 50).capacite ≤ s2.capacite :=
  (spec_C3 [] 0 540 120 40 [Salle.mk 1 "A" 20, Salle.mk 2 "B" 50]).1
    (Salle.mk 2 "B" 50) (by decide)

/-- Claim C4: for every task and candidate slot, the examiner returned by
the examiner-selection query is in the catalog, is available at that slot,
and is minimal under the lexicographic key (0 if its department matches
the task's owning department else 1, then identity ascending) among the
available examiners; no examiner is returned exactly when the available
set is empty. -/
theorem spec_C4 (store : List Exam) (d t dur dept : Nat) (profs : List Prof) :
    (∀ p, findProf store d t dur dept profs = some p →
      p ∈ profs ∧ busyProf store d t dur p.id = false ∧
        ∀ q ∈ profs, busyProf store d t dur q.id = false →
          keyLe (profKey dept p) (profKey dept q)) ∧
    (findProf store d t dur dept profs = none ↔
      ∀ q ∈ profs, busyProf store d t dur q.id = true) := by
  refine ⟨?_, findProf_none⟩
  intro p hsome
  exact findProf_some hsome

/-- Witness for spec_C4: with professors 1 (other department) and 2
(matching department 5) both free, professor 2 is returned and its key is
minimal. -/
theorem spec_C4_witness :
    Prof.mk 2 "Q" 5 ∈ [Prof.mk 1 "P" 2, Prof.mk 2 "Q" 5] ∧
    busyProf [] 0 540 120 (Prof.mk 2 "Q" 5).id = false ∧
    ∀ q ∈ [Prof.mk 1 "P" 2, Prof.mk 2 "Q" 5], busyProf [] 0 540 120 q.id = false →
      keyLe (profKey 5 (Prof.mk 2 "Q" 5)) (profKey 5 q) :=
  (spec_C4 [] 0 540 120 5 [Prof.mk 1 "P" 2, Prof.mk 2 "Q" 5]).1
    (Prof.mk 2 "Q" 5) (by decide)

end Sched

namespace Sched

/-- Exhaustive description of one iteration of the attempt loop: either a
retry that consumed an attempt without touching the insert list (cap roll
or unavailable professor or room), a retry after a rejected insert that
stored the rejection reason, or a successful placement. -/
theorem tryStep_cases (cfg : Config) (oracle : InsertOracle) (pre : List Exam) (m : ModuleRow)
    (used : Nat) (err : Option String) (rejs : List String) (st : InnerSt) :
    (∃ s2 : InnerSt,
      tryStep cfg oracle pre m used err rejs st = StepRes.next (used + 1) err rejs s2 ∧
      s2.inserted = st.inserted ∧
      (s2.slotTrace = st.slotTrace ∨
        s2.slotTrace = st.slotTrace ++ [(st.cursor.date, st.cursor.time)]) ∧
      (s2.cursor = Cursor.mk (st.cursor.date + 1) cfg.startTime 0 ∨
        s2.cursor = advanceFail cfg.startTime st.cursor)) ∨
    (∃ (rr : String) (s2 : InnerSt),
      tryStep cfg oracle pre m used err rejs st =
        StepRes.next (used + 1) (some rr) (rejs ++ [rr]) s2 ∧
      s2.inserted = st.inserted ∧
      s2.slotTrace = st.slotTrace ++ [(st.cursor.date, st.cursor.time)] ∧
      s2.cursor = advanceFail cfg.startTime st.cursor) ∨
    (∃ (p : Prof) (s : Salle),
      findProf (pre ++ st.inserted) st.cursor.date st.cursor.time cfg.durationMinutes
        m.departementId cfg.profs = some p ∧
      findSalle (pre ++ st.inserted) st.cursor.date st.cursor.time cfg.durationMinutes
        m.studentCount cfg.salles = some s ∧
      tryStep cfg oracle pre m used err rejs st = StepRes.done (TryOut.mk true
        (successMsg m.nom st.cursor.date st.cursor.time p.nom s.nom) err rejs used
        (some st.cursor)
        (InnerSt.mk (advanceSuccess cfg.startTime st.cursor)
          (st.inserted ++
            [Exam.mk st.cursor.date st.cursor.time cfg.durationMinutes m.moduleId p.id s.id])
          (st.slotTrace ++ [(st.cursor.date, st.cursor.time)])))) := by
  by_cases hcap : cfg.timeSlotsPerDay ≤ st.cursor.examsToday
  · have hstep : tryStep cfg oracle pre m used err rejs st = StepRes.next (used + 1) err rejs
        (InnerSt.mk (Cursor.mk (st.cursor.date + 1) cfg.startTime 0) st.inserted
          st.slotTrace) := by
      simp [tryStep, hcap]
    exact Or.inl ⟨_, hstep, rfl, Or.inl rfl, Or.inl rfl⟩
  · cases hfp : findProf (pre ++ st.inserted) st.cursor.date st.cursor.time cfg.durationMinutes
        m.departementId cfg.profs with
    | none =>
      have hstep : tryStep cfg oracle pre m used err rejs st = StepRes.next (used + 1) err rejs
          (InnerSt.mk (advanceFail cfg.startTime st.cursor) st.inserted
            (st.slotTrace ++ [(st.cursor.date, st.cursor.time)])) := by
        simp [tryStep, hcap, hfp]
      exact Or.inl ⟨_, hstep, rfl, Or.inr rfl, Or.inr rfl⟩
    | some p =>
      cases hfs : findSalle (pre ++ st.inserted) st.cursor.date st.cursor.time cfg.durationMinutes
          m.studentCount cfg.salles with
      | none =>
        have hstep : tryStep cfg oracle pre m used err rejs st = StepRes.next (used + 1) err rejs
            (InnerSt.mk (advanceFail cfg.startTime st.cursor) st.inserted
              (st.slotTrace ++ [(st.cursor.date, st.cursor.time)])) := by
          simp [tryStep, hcap, hfp, hfs]
        exact Or.inl ⟨_, hstep, rfl, Or.inr rfl, Or.inr rfl⟩
      | some s =>
        cases ho : oracle (pre ++ st.inserted)
            (Exam.mk st.cursor.date st.cursor.time cfg.durationMinutes m.moduleId p.id s.id) with
        | some rr =>
          have hstep : tryStep cfg oracle pre m used err rejs st =
              StepRes.next (used + 1) (some rr) (rejs ++ [rr])
              (InnerSt.mk (advanceFail cfg.startTime st.cursor) st.inserted
                (st.slotTrace ++ [(st.cursor.date, st.cursor.time)])) := by
            simp [tryStep, hcap, hfp, hfs, ho]
          exact Or.inr (Or.inl ⟨rr, _, hstep, rfl, rfl, rfl⟩)
        | none =>
          have hstep : tryStep cfg oracle pre m used err rejs st = StepRes.done (TryOut.mk true
              (successMsg m.nom st.cursor.date st.cursor.time p.nom s.nom) err rejs used
              (some st.cursor)
              (InnerSt.mk (advanceSuccess cfg.startTime st.cursor)
                (st.inserted ++
                  [Exam.mk st.cursor.date st.cursor.time cfg.durationMinutes m.moduleId p.id s.id])
                (st.slotTrace ++ [(st.cursor.date, st.cursor.time)]))) := by
            simp [tryStep, hcap, hfp, hfs, ho]
          exact Or.inr (Or.inr ⟨p, s, rfl, rfl, hstep⟩)

/-- recordOutcome on a failed attempt loop: the failure counter and the
failure detail are appended, everything else is carried over. -/
theorem recordOutcome_false {m : ModuleRow} {st : RunState} {r : TryOut}
    (h : r.scheduled = false) :
    recordOutcome m st r = RunState.mk r.st.cursor st.preStore r.st.inserted
      st.success (st.failed + 1) st.total
      (st.details ++ [(m.moduleId, "failed", failMsg m.nom r.err)])
      r.st.slotTrace (st.attemptCounts ++ [r.used]) := by
  unfold recordOutcome
  rw [h]
  rfl

/-- recordOutcome on a successful attempt loop: the success counter and the
success detail are appended, everything else is carried over. -/
theorem recordOutcome_true {m : ModuleRow} {st : RunState} {r : TryOut}
    (h : r.scheduled = true) :
    recordOutcome m st r = RunState.mk r.st.cursor st.preStore r.st.inserted
      (st.success + 1) st.failed st.total
      (st.details ++ [(m.moduleId, "success", r.okMsg)])
      r.st.slotTrace (st.attemptCounts ++ [r.used]) := by
  unfold recordOutcome
  rw [h]
  rfl

/-- The pre-existing rows are never modified by the driver loop. -/
theorem processModules_preStore (cfg : Config) (oracle : InsertOracle) :
    ∀ (ms : List ModuleRow) (st : RunState),
      (processModules cfg oracle ms st).preStore = st.preStore := by
  intro ms
  induction ms with
  | nil => intro st; rfl
  | cons m rest ih =>
    intro st
    show (processModules cfg oracle rest (stepModule cfg oracle m st)).preStore = st.preStore
    rw [ih]
    unfold stepModule
    by_cases hs : (tryModule cfg oracle st.preStore m 10 0 none []
        (InnerSt.mk st.cursor st.inserted st.slotTrace)).scheduled
    · rw [recordOutcome_true hs]
    · rw [recordOutcome_false (Bool.of_not_eq_true hs)]

/-- One unfolding of the attempt loop on a retry outcome. -/
theorem tryModule_next {cfg : Config} {oracle : InsertOracle} {pre : List Exam} {m : ModuleRow}
    {n used : Nat} {err : Option String} {rejs : List String} {st : InnerSt}
    {u : Nat} {e : Option String} {r : List String} {s2 : InnerSt}
    (h : tryStep cfg oracle pre m used err rejs st = StepRes.next u e r s2) :
    tryModule cfg oracle pre m (n + 1) used err rejs st =
      tryModule cfg oracle pre m n u e r s2 := by
  show (match tryStep cfg oracle pre m used err rejs st with
    | StepRes.done o => o
    | StepRes.next u e r s2 => tryModule cfg oracle pre m n u e r s2) = _
  rw [h]

/-- One unfolding of the attempt loop on a success outcome. -/
theorem tryModule_done {cfg : Config} {oracle : InsertOracle} {pre : List Exam} {m : ModuleRow}
    {n used : Nat} {err : Option String} {rejs : List String} {st : InnerSt} {o : TryOut}
    (h : tryStep cfg oracle pre m used err rejs st = StepRes.done o) :
    tryModule cfg oracle pre m (n + 1) used err rejs st = o := by
  show (match tryStep cfg oracle pre m used err rejs st with
    | StepRes.done o => o
    | StepRes.next u e r s2 => tryModule cfg oracle pre m n u e r s2) = _
  rw [h]

/-- The attempt counter grows by at most the fuel: with fuel 10 and counter
0 at entry, at most 10 attempts are counted. -/
theorem tryModule_used_le (cfg : Config) (oracle : InsertOracle) (pre : List Exam)
    (m : ModuleRow) :
    ∀ (fuel used : Nat) (err : Option String) (rejs : List String) (st : InnerSt),
      (tryModule cfg oracle pre m fuel used err rejs st).used ≤ used + fuel := by
  intro fuel
  induction fuel with
  | zero =>
    intro used err rejs st
    exact Nat.le_add_right used 0
  | succ n ih =>
    intro used err rejs st
    rcases tryStep_cases cfg oracle pre m used err rejs st with
      ⟨s2, hstep, _, _, _⟩ | ⟨rr, s2, hstep, _, _, _⟩ | ⟨p, s, _, _, hstep⟩
    · rw [tryModule_next hstep]
      exact le_trans (ih (used + 1) err rejs s2) (by omega)
    · rw [tryModule_next hstep]
      exact le_trans (ih (used + 1) (some rr) (rejs ++ [rr]) s2) (by omega)
    · rw [tryModule_done hstep]
      exact Nat.le_add_right used (n + 1)

/-- With an empty examiner catalog no iteration can place the module: the
loop always reports not scheduled and inserts nothing. -/
theorem tryModule_noProfs {cfg : Config} (oracle : InsertOracle) (pre : List Exam)
    (m : ModuleRow) (hpr : cfg.profs = []) :
    ∀ (fuel used : Nat) (err : Option String) (rejs : List String) (st : InnerSt),
      (tryModule cfg oracle pre m fuel used err rejs st).scheduled = false ∧
      (tryModule cfg oracle pre m fuel used err rejs st).st.inserted = st.inserted := by
  intro fuel
  induction fuel with
  | zero =>
    intro used err rejs st
    exact ⟨rfl, rfl⟩
  | succ n ih =>
    intro used err rejs st
    rcases tryStep_cases cfg oracle pre m used err rejs st with
      ⟨s2, hstep, hins, _, _⟩ | ⟨rr, s2, hstep, hins, _, _⟩ | ⟨p, s, hfp, _, hstep⟩
    · rw [tryModule_next hstep]
      obtain ⟨h1, h2⟩ := ih (used + 1) err rejs s2
      exact ⟨h1, by rw [h2, hins]⟩
    · rw [tryModule_next hstep]
      obtain ⟨h1, h2⟩ := ih (used + 1) (some rr) (rejs ++ [rr]) s2
      exact ⟨h1, by rw [h2, hins]⟩
    · rw [hpr] at hfp
      have : (none : Option Prof) = some p := by
        rw [← hfp]
        rfl
      exact absurd this (by simp)

/-- The stored error message is always the last rejection reason seen. -/
theorem tryModule_err (cfg : Config) (oracle : InsertOracle) (pre : List Exam) (m : ModuleRow) :
    ∀ (fuel used : Nat) (err : Option String) (rejs : List String) (st : InnerSt),
      err = rejs.getLast? →
      (tryModule cfg oracle pre m fuel used err rejs st).err =
        (tryModule cfg oracle pre m fuel used err rejs st).rejs.getLast? := by
  intro fuel
  induction fuel with
  | zero =>
    intro used err rejs st h
    exact h
  | succ n ih =>
    intro used err rejs st h
    rcases tryStep_cases cfg oracle pre m used err rejs st with
      ⟨s2, hstep, _, _, _⟩ | ⟨rr, s2, hstep, _, _, _⟩ | ⟨p, s, _, _, hstep⟩
    · rw [tryModule_next hstep]
      exact ih (used + 1) err rejs s2 h
    · rw [tryModule_next hstep]
      exact ih (used + 1) (some rr) (rejs ++ [rr]) s2 (by rw [List.getLast?_concat])
    · rw [tryModule_done hstep]
      exact h

/-- The failure advance never increases the daily counter. -/
theorem advanceFail_examsToday (s : Nat) (c : Cursor) :
    (advanceFail s c).examsToday ≤ c.examsToday := by
  unfold advanceFail
  by_cases h : 1080 ≤ (c.time + 120) % 1440
  · rw [if_pos h]
    exact Nat.zero_le _
  · rw [if_neg h]

/-- The daily counter behaviour of the two advances: on a same-day move the
success advance increments and the failure advance keeps the counter; on a
day roll both reset it to zero. -/
theorem advance_examsToday_cases (s : Nat) (c : Cursor) :
    ((c.time + 120) % 1440 < 1080 →
      (advanceSuccess s c).examsToday = c.examsToday + 1 ∧
      (advanceFail s c).examsToday = c.examsToday) ∧
    (1080 ≤ (c.time + 120) % 1440 →
      (advanceSuccess s c).examsToday = 0 ∧ (advanceFail s c).examsToday = 0) := by
  constructor
  · intro h
    have h2 : ¬ 1080 ≤ (c.time + 120) % 1440 := by omega
    unfold advanceSuccess advanceFail
    rw [if_neg h2, if_neg h2]
    exact ⟨rfl, rfl⟩
  · intro h
    unfold advanceSuccess advanceFail
    rw [if_pos h, if_pos h]
    exact ⟨rfl, rfl⟩

/-- Daily-counter behaviour of the attempt loop: a loop that fails never
increases the counter, and a loop that succeeds ends with the cursor equal
to the success advance applied at the placement cursor, whose counter was
no larger than the entry counter. -/
theorem tryModule_counter (cfg : Config) (oracle : InsertOracle) (pre : List Exam)
    (m : ModuleRow) :
    ∀ (fuel used : Nat) (err : Option String) (rejs : List String) (st : InnerSt),
      ((tryModule cfg oracle pre m fuel used err rejs st).scheduled = false →
        (tryModule cfg oracle pre m fuel used err rejs st).placedCursor = none ∧
        (tryModule cfg oracle pre m fuel used err rejs st).st.cursor.examsToday ≤
          st.cursor.examsToday) ∧
      ((tryModule cfg oracle pre m fuel used err rejs st).scheduled = true →
        ∃ c : Cursor,
          (tryModule cfg oracle pre m fuel used err rejs st).placedCursor = some c ∧
          c.examsToday ≤ st.cursor.examsToday ∧
          (tryModule cfg oracle pre m fuel used err rejs st).st.cursor =
            advanceSuccess cfg.startTime c) := by
  intro fuel
  induction fuel with
  | zero =>
    intro used err rejs st
    refine ⟨fun _ => ⟨rfl, Nat.le_refl _⟩, fun h => ?_⟩
    exact absurd h (by simp [tryModule])
  | succ n ih =>
    intro used err rejs st
    rcases tryStep_cases cfg oracle pre m used err rejs st with
      ⟨s2, hstep, _, _, hcur⟩ | ⟨rr, s2, hstep, _, _, hcur⟩ | ⟨p, s, _, _, hstep⟩
    · rw [tryModule_next hstep]
      have hle : s2.cursor.examsToday ≤ st.cursor.examsToday := by
        rcases hcur with h | h
        · rw [h]; exact Nat.zero_le _
        · rw [h]; exact advanceFail_examsToday cfg.startTime st.cursor
      obtain ⟨ihf, iht⟩ := ih (used + 1) err rejs s2
      refine ⟨fun h => ⟨(ihf h).1, le_trans (ihf h).2 hle⟩, fun h => ?_⟩
      obtain ⟨c, hc1, hc2, hc3⟩ := iht h
      exact ⟨c, hc1, le_trans hc2 hle, hc3⟩
    · rw [tryModule_next hstep]
      have hle : s2.cursor.examsToday ≤ st.cursor.examsToday := by
        rw [hcur]; exact advanceFail_examsToday cfg.startTime st.cursor
      obtain ⟨ihf, iht⟩ := ih (used + 1) (some rr) (rejs ++ [rr]) s2
      refine ⟨fun h => ⟨(ihf h).1, le_trans (ihf h).2 hle⟩, fun h => ?_⟩
      obtain ⟨c, hc1, hc2, hc3⟩ := iht h
      exact ⟨c, hc1, le_trans hc2 hle, hc3⟩
    · rw [tryModule_done hstep]
      refine ⟨fun h => absurd h (by simp), fun _ => ?_⟩
      exact ⟨st.cursor, rfl, Nat.le_refl _, rfl⟩

/-- Transitivity of the cursor-position order. -/
theorem slotLt_trans {a b c : Nat × Nat} (h1 : slotLt a b) (h2 : slotLt b c) : slotLt a c := by
  unfold slotLt at *
  omega

/-- With a pre-advance time below 22:00 the failure advance strictly
increases the (date, time) position. -/
theorem advanceFail_gt {c : Cursor} (s : Nat) (h : c.time < 1320) :
    slotLt (c.date, c.time) ((advanceFail s c).date, (advanceFail s c).time) := by
  unfold advanceFail
  by_cases hr : 1080 ≤ (c.time + 120) % 1440
  · rw [if_pos hr]
    exact Or.inl (Nat.lt_succ_self _)
  · rw [if_neg hr]
    refine Or.inr ⟨rfl, ?_⟩
    show c.time < (c.time + 120) % 1440
    omega

/-- With a pre-advance time below 22:00 and a starting time below 22:00 the
failure advance keeps the time below 22:00. -/
theorem advanceFail_time {c : Cursor} {s : Nat} (h : c.time < 1320) (hs : s < 1320) :
    (advanceFail s c).time < 1320 := by
  unfold advanceFail
  by_cases hr : 1080 ≤ (c.time + 120) % 1440
  · rw [if_pos hr]
    exact hs
  · rw [if_neg hr]
    show (c.time + 120) % 1440 < 1320
    omega

/-- With a pre-advance time below 22:00 the success advance strictly
increases the (date, time) position. -/
theorem advanceSuccess_gt {c : Cursor} (s : Nat) (h : c.time < 1320) :
    slotLt (c.date, c.time) ((advanceSuccess s c).date, (advanceSuccess s c).time) := by
  unfold advanceSuccess
  by_cases hr : 1080 ≤ (c.time + 120) % 1440
  · rw [if_pos hr]
    exact Or.inl (Nat.lt_succ_self _)
  · rw [if_neg hr]
    refine Or.inr ⟨rfl, ?_⟩
    show c.time < (c.time + 120) % 1440
    omega

/-- With a pre-advance time below 22:00 and a starting time below 22:00 the
success advance keeps the time below 22:00. -/
theorem advanceSuccess_time {c : Cursor} {s : Nat} (h : c.time < 1320) (hs : s < 1320) :
    (advanceSuccess s c).time < 1320 := by
  unfold advanceSuccess
  by_cases hr : 1080 ≤ (c.time + 120) % 1440
  · rw [if_pos hr]
    exact hs
  · rw [if_neg hr]
    show (c.time + 120) % 1440 < 1320
    omega

/-- The trace invariant is preserved by any strict cursor move that does not
record a slot. -/
theorem traceInv_mono {c c2 : Cursor} {tr : List (Nat × Nat)} (h : traceInv c tr)
    (hlt : slotLt (c.date, c.time) (c2.date, c2.time)) : traceInv c2 tr :=
  ⟨h.1, fun x hx => slotLt_trans (h.2 x hx) hlt⟩

/-- Recording the current slot and then moving the cursor strictly up
preserves the trace invariant. -/
theorem traceInv_extend {c c2 : Cursor} {tr : List (Nat × Nat)} (h : traceInv c tr)
    (hlt : slotLt (c.date, c.time) (c2.date, c2.time)) :
    traceInv c2 (tr ++ [(c.date, c.time)]) := by
  constructor
  · rw [List.chain'_append]
    refine ⟨h.1, List.chain'_singleton _, ?_⟩
    intro x hx y hy
    have hxmem : x ∈ tr := by
      rcases List.mem_getLast?_eq_getLast hx with ⟨hne, rfl⟩
      exact List.getLast_mem hne
    have hy' : (c.date, c.time) = y := by simpa using hy
    rw [← hy']
    exact h.2 x hxmem
  · intro x hx
    rcases List.mem_append.mp hx with hx1 | hx2
    · exact slotLt_trans (h.2 x hx1) hlt
    · have hx' : x = (c.date, c.time) := by simpa using hx2
      rw [hx']
      exact hlt

/-- Provided the configured starting time is before 22:00, the attempt loop
keeps the cursor time before 22:00 and preserves the trace invariant. -/
theorem tryModule_trace (cfg : Config) (oracle : InsertOracle) (pre : List Exam) (m : ModuleRow)
    (hst : cfg.startTime < 1320) :
    ∀ (fuel used : Nat) (err : Option String) (rejs : List String) (st : InnerSt),
      st.cursor.time < 1320 → traceInv st.cursor st.slotTrace →
      (tryModule cfg oracle pre m fuel used err rejs st).st.cursor.time < 1320 ∧
      traceInv (tryModule cfg oracle pre m fuel used err rejs st).st.cursor
        (tryModule cfg oracle pre m fuel used err rejs st).st.slotTrace := by
  intro fuel
  induction fuel with
  | zero =>
    intro used err rejs st htime hinv
    exact ⟨htime, hinv⟩
  | succ n ih =>
    intro used err rejs st htime hinv
    rcases tryStep_cases cfg oracle pre m used err rejs st with
      ⟨s2, hstep, _, htr, hcur⟩ | ⟨rr, s2, hstep, _, htr, hcur⟩ | ⟨p, s, _, _, hstep⟩
    · have hlt : slotLt (st.cursor.date, st.cursor.time) (s2.cursor.date, s2.cursor.time) := by
        rcases hcur with h | h
        · rw [h]; exact Or.inl (Nat.lt_succ_self _)
        · rw [h]; exact advanceFail_gt cfg.startTime htime
      have htime2 : s2.cursor.time < 1320 := by
        rcases hcur with h | h
        · rw [h]; exact hst
        · rw [h]; exact advanceFail_time htime hst
      have hinv2 : traceInv s2.cursor s2.slotTrace := by
        rcases htr with h | h
        · rw [h]; exact traceInv_mono hinv hlt
        · rw [h]; exact traceInv_extend hinv hlt
      rw [tryModule_next hstep]
      exact ih (used + 1) err rejs s2 htime2 hinv2
    · have hlt : slotLt (st.cursor.date, st.cursor.time) (s2.cursor.date, s2.cursor.time) := by
        rw [hcur]; exact advanceFail_gt cfg.startTime htime
      have htime2 : s2.cursor.time < 1320 := by
        rw [hcur]; exact advanceFail_time htime hst
      have hinv2 : traceInv s2.cursor s2.slotTrace := by
        rw [htr]; exact traceInv_extend hinv hlt
      rw [tryModule_next hstep]
      exact ih (used + 1) (some rr) (rejs ++ [rr]) s2 htime2 hinv2
    · rw [tryModule_done hstep]
      refine ⟨advanceSuccess_time htime hst, ?_⟩
      exact traceInv_extend hinv (advanceSuccess_gt cfg.startTime htime)

/-- The fields of one driver step: cursor, trace and inserts come from the
attempt loop; the pre-existing store and the total are untouched. -/
theorem stepModule_fields (cfg : Config) (oracle : InsertOracle) (m : ModuleRow)
    (st : RunState) :
    (stepModule cfg oracle m st).cursor =
      (tryModule cfg oracle st.preStore m 10 0 none []
        (InnerSt.mk st.cursor st.inserted st.slotTrace)).st.cursor ∧
    (stepModule cfg oracle m st).slotTrace =
      (tryModule cfg oracle st.preStore m 10 0 none []
        (InnerSt.mk st.cursor st.inserted st.slotTrace)).st.slotTrace ∧
    (stepModule cfg oracle m st).inserted =
      (tryModule cfg oracle st.preStore m 10 0 none []
        (InnerSt.mk st.cursor st.inserted st.slotTrace)).st.inserted ∧
    (stepModule cfg oracle m st).preStore = st.preStore ∧
    (stepModule cfg oracle m st).total = st.total := by
  unfold stepModule
  by_cases hs : (tryModule cfg oracle st.preStore m 10 0 none []
      (InnerSt.mk st.cursor st.inserted st.slotTrace)).scheduled
  · rw [recordOutcome_true hs]
    exact ⟨rfl, rfl, rfl, rfl, rfl⟩
  · rw [recordOutcome_false (Bool.of_not_eq_true hs)]
    exact ⟨rfl, rfl, rfl, rfl, rfl⟩

/-- A row inserted after both availability queries returned a resource has
been checked against every row then visible in the store. -/
theorem checked_of_avail {pre ins : List Exam} {d t dur dept cap : Nat} (mid : Nat)
    {profs : List Prof} {salles : List Salle} {p : Prof} {s : Salle}
    (hfp : findProf (pre ++ ins) d t dur dept profs = some p)
    (hfs : findSalle (pre ++ ins) d t dur cap salles = some s) :
    ∀ x ∈ pre ++ ins, checkedAgainst x (Exam.mk d t dur mid p.id s.id) := by
  intro x hx
  have hbp := (findProf_some hfp).2.1
  have hbs := (findSalle_some hfs).2.2.1
  rw [busyProf_false_iff] at hbp
  rw [busySalle_false_iff] at hbs
  intro hdate
  exact ⟨fun hprof => hbp x hx hdate hprof, fun hsalle => hbs x hx hdate hsalle⟩

/-- Having passed the wrapped-end availability test yields the real
non-overlap property whenever neither interval crosses midnight. -/
theorem checkedAgainst_safePair {x b : Exam} (h : checkedAgainst x b) : safePair x b := by
  intro hdate hwx hwb
  have hwx' : wrapEnd x.heureDebut x.dureeMinutes = x.heureDebut + x.dureeMinutes :=
    Nat.mod_eq_of_lt hwx
  have hwb' : wrapEnd b.heureDebut b.dureeMinutes = b.heureDebut + b.dureeMinutes :=
    Nat.mod_eq_of_lt hwb
  obtain ⟨h1, h2⟩ := h hdate
  constructor
  · intro hp hov
    exact h1 hp ⟨by rw [hwx']; exact hov.1, by rw [hwb']; exact hov.2⟩
  · intro hs hov
    exact h2 hs ⟨by rw [hwx']; exact hov.1, by rw [hwb']; exact hov.2⟩

/-- The attempt loop preserves the insert invariant: every row it appends
passed both availability queries against the whole visible store. -/
theorem tryModule_okIns (cfg : Config) (oracle : InsertOracle) (pre : List Exam) (m : ModuleRow) :
    ∀ (fuel used : Nat) (err : Option String) (rejs : List String) (st : InnerSt),
      okIns pre st.inserted →
      okIns pre (tryModule cfg oracle pre m fuel used err rejs st).st.inserted := by
  intro fuel
  induction fuel with
  | zero =>
    intro used err rejs st h
    exact h
  | succ n ih =>
    intro used err rejs st h
    rcases tryStep_cases cfg oracle pre m used err rejs st with
      ⟨s2, hstep, hins, _, _⟩ | ⟨rr, s2, hstep, hins, _, _⟩ | ⟨p, s, hfp, hfs, hstep⟩
    · rw [tryModule_next hstep]
      exact ih (used + 1) err rejs s2 (by rw [hins]; exact h)
    · rw [tryModule_next hstep]
      exact ih (used + 1) (some rr) (rejs ++ [rr]) s2 (by rw [hins]; exact h)
    · rw [tryModule_done hstep]
      have hall := checked_of_avail m.moduleId hfp hfs
      constructor
      · intro b' hb' x hx
        rcases List.mem_append.mp hb' with h1 | h2
        · exact h.1 b' h1 x hx
        · have hb'' : b' = Exam.mk st.cursor.date st.cursor.time cfg.durationMinutes
              m.moduleId p.id s.id := by simpa using h2
          rw [hb'']
          exact hall x (List.mem_append_left _ hx)
      · rw [List.pairwise_append]
        refine ⟨h.2, List.pairwise_singleton _ _, ?_⟩
        intro x hx y hy
        have hy' : y = Exam.mk st.cursor.date st.cursor.time cfg.durationMinutes
            m.moduleId p.id s.id := by simpa using hy
        rw [hy']
        exact hall x (List.mem_append_right _ hx)

/-- The driver loop preserves the insert invariant. -/
theorem processModules_okIns (cfg : Config) (oracle : InsertOracle) :
    ∀ (ms : List ModuleRow) (st : RunState),
      okIns st.preStore st.inserted →
      okIns (processModules cfg oracle ms st).preStore
        (processModules cfg oracle ms st).inserted := by
  intro ms
  induction ms with
  | nil =>
    intro st h
    exact h
  | cons m rest ih =>
    intro st h
    show okIns (processModules cfg oracle rest (stepModule cfg oracle m st)).preStore
      (processModules cfg oracle rest (stepModule cfg oracle m st)).inserted
    apply ih
    have hf := stepModule_fields cfg oracle m st
    rw [hf.2.2.2.1, hf.2.2.1]
    exact tryModule_okIns cfg oracle st.preStore m 10 0 none []
      (InnerSt.mk st.cursor st.inserted st.slotTrace) h

/-- One unfolding of the driver loop. -/
theorem processModules_cons (cfg : Config) (oracle : InsertOracle) (m : ModuleRow)
    (rest : List ModuleRow) (st : RunState) :
    processModules cfg oracle (m :: rest) st =
      processModules cfg oracle rest (stepModule cfg oracle m st) := rfl

/-- The attempt count recorded for each module is the loop's final counter. -/
theorem stepModule_attemptCounts (cfg : Config) (oracle : InsertOracle) (m : ModuleRow)
    (st : RunState) :
    (stepModule cfg oracle m st).attemptCounts = st.attemptCounts ++
      [(tryModule cfg oracle st.preStore m 10 0 none []
        (InnerSt.mk st.cursor st.inserted st.slotTrace)).used] := by
  unfold stepModule
  by_cases hs : (tryModule cfg oracle st.preStore m 10 0 none []
      (InnerSt.mk st.cursor st.inserted st.slotTrace)).scheduled
  · rw [recordOutcome_true hs]
  · rw [recordOutcome_false (Bool.of_not_eq_true hs)]

/-- Every recorded attempt count stays at or below the ceiling of 10. -/
theorem processModules_attempts (cfg : Config) (oracle : InsertOracle) :
    ∀ (ms : List ModuleRow) (st : RunState),
      (∀ a ∈ st.attemptCounts, a ≤ 10) →
      ∀ a ∈ (processModules cfg oracle ms st).attemptCounts, a ≤ 10 := by
  intro ms
  induction ms with
  | nil =>
    intro st h
    exact h
  | cons m rest ih =>
    intro st h
    show ∀ a ∈ (processModules cfg oracle rest (stepModule cfg oracle m st)).attemptCounts, a ≤ 10
    apply ih
    rw [stepModule_attemptCounts]
    intro a ha
    rcases List.mem_append.mp ha with h1 | h2
    · exact h a h1
    · have ha' : a = (tryModule cfg oracle st.preStore m 10 0 none []
          (InnerSt.mk st.cursor st.inserted st.slotTrace)).used := by simpa using h2
      rw [ha']
      exact tryModule_used_le cfg oracle st.preStore m 10 0 none [] _

/-- Cursor-time bound and trace invariant through the whole driver loop. -/
theorem processModules_trace (cfg : Config) (oracle : InsertOracle)
    (hst : cfg.startTime < 1320) :
    ∀ (ms : List ModuleRow) (st : RunState),
      st.cursor.time < 1320 → traceInv st.cursor st.slotTrace →
      (processModules cfg oracle ms st).cursor.time < 1320 ∧
      traceInv (processModules cfg oracle ms st).cursor
        (processModules cfg oracle ms st).slotTrace := by
  intro ms
  induction ms with
  | nil =>
    intro st h1 h2
    exact ⟨h1, h2⟩
  | cons m rest ih =>
    intro st h1 h2
    show (processModules cfg oracle rest (stepModule cfg oracle m st)).cursor.time < 1320 ∧ _
    apply ih
    · have hf := stepModule_fields cfg oracle m st
      rw [hf.1]
      exact (tryModule_trace cfg oracle st.preStore m hst 10 0 none []
        (InnerSt.mk st.cursor st.inserted st.slotTrace) h1 h2).1
    · have hf := stepModule_fields cfg oracle m st
      rw [hf.1, hf.2.1]
      exact (tryModule_trace cfg oracle st.preStore m hst 10 0 none []
        (InnerSt.mk st.cursor st.inserted st.slotTrace) h1 h2).2

/-- With an empty examiner catalog every module fails: the success counter
never moves, each module adds one failure, nothing is inserted, and every
new detail record carries the failed tag. -/
theorem processModules_noProfs {cfg : Config} (oracle : InsertOracle) (hpr : cfg.profs = []) :
    ∀ (ms : List ModuleRow) (st : RunState),
      (processModules cfg oracle ms st).success = st.success ∧
      (processModules cfg oracle ms st).failed = st.failed + ms.length ∧
      (processModules cfg oracle ms st).inserted = st.inserted ∧
      (∀ dtl ∈ (processModules cfg oracle ms st).details,
        dtl ∈ st.details ∨ dtl.2.1 = "failed") := by
  intro ms
  induction ms with
  | nil =>
    intro st
    exact ⟨rfl, rfl, rfl, fun dtl hd => Or.inl hd⟩
  | cons m rest ih =>
    intro st
    have hsch := (tryModule_noProfs oracle st.preStore m hpr 10 0 none []
      (InnerSt.mk st.cursor st.inserted st.slotTrace)).1
    have hins := (tryModule_noProfs oracle st.preStore m hpr 10 0 none []
      (InnerSt.mk st.cursor st.inserted st.slotTrace)).2
    have hstep : stepModule cfg oracle m st = RunState.mk
        (tryModule cfg oracle st.preStore m 10 0 none []
          (InnerSt.mk st.cursor st.inserted st.slotTrace)).st.cursor
        st.preStore
        (tryModule cfg oracle st.preStore m 10 0 none []
          (InnerSt.mk st.cursor st.inserted st.slotTrace)).st.inserted
        st.success (st.failed + 1) st.total
        (st.details ++ [(m.moduleId, "failed", failMsg m.nom
          (tryModule cfg oracle st.preStore m 10 0 none []
            (InnerSt.mk st.cursor st.inserted st.slotTrace)).err)])
        (tryModule cfg oracle st.preStore m 10 0 none []
          (InnerSt.mk st.cursor st.inserted st.slotTrace)).st.slotTrace
        (st.attemptCounts ++ [(tryModule cfg oracle st.preStore m 10 0 none []
          (InnerSt.mk st.cursor st.inserted st.slotTrace)).used]) := by
      unfold stepModule
      exact recordOutcome_false hsch
    obtain ⟨i1, i2, i3, i4⟩ := ih (stepModule cfg oracle m st)
    rw [processModules_cons]
    refine ⟨?_, ?_, ?_, ?_⟩
    · rw [i1, hstep]
    · rw [i2, hstep]
      show st.failed + 1 + rest.length = st.failed + (rest.length + 1)
      omega
    · rw [i3, hstep]
      show (tryModule cfg oracle st.preStore m 10 0 none []
        (InnerSt.mk st.cursor st.inserted st.slotTrace)).st.inserted = st.inserted
      exact hins
    · intro dtl hd
      rcases i4 dtl hd with hmem | hout
      · rw [hstep] at hmem
        have hmem' : dtl ∈ st.details ++ [(m.moduleId, "failed", failMsg m.nom
            (tryModule cfg oracle st.preStore m 10 0 none []
              (InnerSt.mk st.cursor st.inserted st.slotTrace)).err)] := hmem
        rcases List.mem_append.mp hmem' with h1 | h2
        · exact Or.inl h1
        · right
          have : dtl = (m.moduleId, "failed", failMsg m.nom
              (tryModule cfg oracle st.preStore m 10 0 none []
                (InnerSt.mk st.cursor st.inserted st.slotTrace)).err) := by simpa using h2
          rw [this]
      · exact Or.inr hout

/-- Reporting invariants of the driver loop: the total is untouched, each
module adds exactly one to success or failed and appends exactly one detail
record carrying its module id and a success or failed tag, and the success
and failed counters stay equal to the counts of matching detail records. -/
theorem processModules_report (cfg : Config) (oracle : InsertOracle) :
    ∀ (ms : List ModuleRow) (st : RunState),
      (processModules cfg oracle ms st).total = st.total ∧
      (processModules cfg oracle ms st).success + (processModules cfg oracle ms st).failed =
        st.success + st.failed + ms.length ∧
      (processModules cfg oracle ms st).details.map (fun dtl => dtl.1) =
        st.details.map (fun dtl => dtl.1) ++ ms.map (fun mm => mm.moduleId) ∧
      (∀ dtl ∈ (processModules cfg oracle ms st).details,
        dtl ∈ st.details ∨ dtl.2.1 = "success" ∨ dtl.2.1 = "failed") ∧
      (st.details.countP (fun dtl => dtl.2.1 == "success") = st.success →
        (processModules cfg oracle ms st).details.countP (fun dtl => dtl.2.1 == "success") =
          (processModules cfg oracle ms st).success) ∧
      (st.details.countP (fun dtl => dtl.2.1 == "failed") = st.failed →
        (processModules cfg oracle ms st).details.countP (fun dtl => dtl.2.1 == "failed") =
          (processModules cfg oracle ms st).failed) := by
  intro ms
  induction ms with
  | nil =>
    intro st
    refine ⟨rfl, rfl, ?_, fun dtl hd => Or.inl hd, fun h => h, fun h => h⟩
    show st.details.map (fun dtl => dtl.1) =
      st.details.map (fun dtl => dtl.1) ++ ([] : List ModuleRow).map (fun mm => mm.moduleId)
    simp
  | cons m rest ih =>
    intro st
    rw [processModules_cons]
    generalize ht : tryModule cfg oracle st.preStore m 10 0 none []
      (InnerSt.mk st.cursor st.inserted st.slotTrace) = r
    by_cases hs : r.scheduled
    · have hstep : stepModule cfg oracle m st = RunState.mk r.st.cursor st.preStore
          r.st.inserted (st.success + 1) st.failed st.total
          (st.details ++ [(m.moduleId, "success", r.okMsg)])
          r.st.slotTrace (st.attemptCounts ++ [r.used]) := by
        unfold stepModule
        rw [ht]
        exact recordOutcome_true hs
      obtain ⟨i1, i2, i3, i4, i5, i6⟩ := ih (stepModule cfg oracle m st)
      refine ⟨?_, ?_, ?_, ?_, ?_, ?_⟩
      · rw [i1, hstep]
      · rw [i2, hstep]
        show st.success + 1 + st.failed + rest.length =
          st.success + st.failed + (rest.length + 1)
        omega
      · rw [i3, hstep]
        show (st.details ++ [(m.moduleId, "success", r.okMsg)]).map (fun dtl => dtl.1) ++
            rest.map (fun mm => mm.moduleId) =
          st.details.map (fun dtl => dtl.1) ++ (m :: rest).map (fun mm => mm.moduleId)
        simp
      · intro dtl hd
        rcases i4 dtl hd with hmem | hout
        · rw [hstep] at hmem
          have hmem' : dtl ∈ st.details ++ [(m.moduleId, "success", r.okMsg)] := hmem
          rcases List.mem_append.mp hmem' with h1 | h2
          · exact Or.inl h1
          · refine Or.inr (Or.inl ?_)
            have hd' : dtl = (m.moduleId, "success", r.okMsg) := by simpa using h2
            rw [hd']
        · exact Or.inr hout
      · intro hc
        apply i5
        rw [hstep]
        show (st.details ++ [(m.moduleId, "success", r.okMsg)]).countP
            (fun dtl => dtl.2.1 == "success") = st.success + 1
        rw [List.countP_append, hc]
        simp [List.countP_cons]
      · intro hc
        apply i6
        rw [hstep]
        show (st.details ++ [(m.moduleId, "success", r.okMsg)]).countP
            (fun dtl => dtl.2.1 == "failed") = st.failed
        rw [List.countP_append, hc]
        simp [List.countP_cons]
    · have hstep : stepModule cfg oracle m st = RunState.mk r.st.cursor st.preStore
          r.st.inserted st.success (st.failed + 1) st.total
          (st.details ++ [(m.moduleId, "failed", failMsg m.nom r.err)])
          r.st.slotTrace (st.attemptCounts ++ [r.used]) := by
        unfold stepModule
        rw [ht]
        exact recordOutcome_false (Bool.of_not_eq_true hs)
      obtain ⟨i1, i2, i3, i4, i5, i6⟩ := ih (stepModule cfg oracle m st)
      refine ⟨?_, ?_, ?_, ?_, ?_, ?_⟩
      · rw [i1, hstep]
      · rw [i2, hstep]
        show st.success + (st.failed + 1) + rest.length =
          st.success + st.failed + (rest.length + 1)
        omega
      · rw [i3, hstep]
        show (st.details ++ [(m.moduleId, "failed", failMsg m.nom r.err)]).map
            (fun dtl => dtl.1) ++ rest.map (fun mm => mm.moduleId) =
          st.details.map (fun dtl => dtl.1) ++ (m :: rest).map (fun mm => mm.moduleId)
        simp
      · intro dtl hd
        rcases i4 dtl hd with hmem | hout
        · rw [hstep] at hmem
          have hmem' : dtl ∈ st.details ++
              [(m.moduleId, "failed", failMsg m.nom r.err)] := hmem
          rcases List.mem_append.mp hmem' with h1 | h2
          · exact Or.inl h1
          · refine Or.inr (Or.inr ?_)
            have hd' : dtl = (m.moduleId, "failed", failMsg m.nom r.err) := by simpa using h2
            rw [hd']
        · exact Or.inr hout
      · intro hc
        apply i5
        rw [hstep]
        show (st.details ++ [(m.moduleId, "failed", failMsg m.nom r.err)]).countP
            (fun dtl => dtl.2.1 == "success") = st.success
        rw [List.countP_append, hc]
        simp [List.countP_cons]
      · intro hc
        apply i6
        rw [hstep]
        show (st.details ++ [(m.moduleId, "failed", failMsg m.nom r.err)]).countP
            (fun dtl => dtl.2.1 == "failed") = st.failed + 1
        rw [List.countP_append, hc]
        simp [List.countP_cons]

/-- Claim C1 (amended): at the end of any run with no concurrent external
writers, every pair of bookings of which at least one was inserted by the
run, sharing the same examiner and the same date, and BOTH of whose
intervals end strictly before midnight (start + duration < 1440 minutes),
have non-overlapping half-open intervals; likewise for pairs sharing a
room.  Without the midnight restriction the claim fails, because the
availability queries compare against end times wrapped modulo 24 hours
(see the counterexample). -/
theorem spec_C1 (cfg : Config) (oracle : InsertOracle) (modules : List ModuleRow)
    (init : List Exam) :
    (∀ b ∈ (generateSchedule cfg oracle modules init).inserted, ∀ x ∈ init, safePair x b) ∧
    List.Pairwise safePair (generateSchedule cfg oracle modules init).inserted := by
  unfold generateSchedule
  have h0 : okIns (initState cfg init modules.length).preStore
      (initState cfg init modules.length).inserted :=
    ⟨fun b hb => absurd hb (List.not_mem_nil b), List.Pairwise.nil⟩
  have h := processModules_okIns cfg oracle modules (initState cfg init modules.length) h0
  have hpre : (processModules cfg oracle modules (initState cfg init modules.length)).preStore
      = init := by
    rw [processModules_preStore]
    rfl
  constructor
  · intro b hb x hx
    refine checkedAgainst_safePair (h.1 b hb x ?_)
    rw [hpre]
    exact hx
  · exact h.2.imp (fun hxy => checkedAgainst_safePair hxy)

/-- Witness for spec_C1: a run starting 10:00 over a store holding a
09:00-10:00 booking of the same professor and room places its module at
10:00, and the resulting pair satisfies the non-overlap property. -/
theorem spec_C1_witness : safePair examMorning (Exam.mk 0 600 60 1 1 1) :=
  (spec_C1 cfgTen oracleOk [moduleM] [examMorning]).1 (Exam.mk 0 600 60 1 1 1) (by decide)
    examMorning (by decide)

/-- Counterexample to claim C1 as stated: over a store holding a booking of
professor 1 and room 1 from 23:00 for 120 minutes (crossing midnight), a
run starting 23:30 with 60-minute exams books the SAME professor and room
at 23:30 on the SAME date, so the two same-date bookings truly overlap on
[23:00, 25:00) and [23:30, 24:30) — the availability queries miss the
conflict because the existing booking's end wraps to 01:00. -/
theorem spec_C1_counterexample :
    (generateSchedule cfgLate oracleOk [moduleM] [examLate]).inserted =
      [Exam.mk 0 1410 60 1 1 1] ∧
    examLate.date = 0 ∧ (Exam.mk 0 1410 60 1 1 1).date = 0 ∧
    examLate.professeurId = 1 ∧ (Exam.mk 0 1410 60 1 1 1).professeurId = 1 ∧
    examLate.salleId = 1 ∧ (Exam.mk 0 1410 60 1 1 1).salleId = 1 ∧
    intervalsOverlap examLate (Exam.mk 0 1410 60 1 1 1) := by
  decide

/-- Claim C5: every task's attempt loop counts at most 10 attempts (the
hard-coded max_attempts) and terminates, and a run with zero available
examiners terminates with every task marked failed, none succeeded and
nothing inserted. -/
theorem spec_C5 (cfg : Config) (oracle : InsertOracle) (modules : List ModuleRow)
    (init : List Exam) :
    (∀ a ∈ (generateSchedule cfg oracle modules init).attemptCounts, a ≤ 10) ∧
    (cfg.profs = [] →
      (generateSchedule cfg oracle modules init).success = 0 ∧
      (generateSchedule cfg oracle modules init).failed = modules.length ∧
      (generateSchedule cfg oracle modules init).inserted = [] ∧
      ∀ dtl ∈ (generateSchedule cfg oracle modules init).details, dtl.2.1 = "failed") := by
  unfold generateSchedule
  constructor
  · exact processModules_attempts cfg oracle modules (initState cfg init modules.length)
      (fun a ha => absurd ha (List.not_mem_nil a))
  · intro hpr
    obtain ⟨h1, h2, h3, h4⟩ :=
      processModules_noProfs oracle hpr modules (initState cfg init modules.length)
    refine ⟨h1, ?_, h3, ?_⟩
    · rw [h2]
      show 0 + modules.length = modules.length
      omega
    · intro dtl hd
      rcases h4 dtl hd with hmem | hout
      · exact absurd hmem (List.not_mem_nil dtl)
      · exact hout

/-- Witness for spec_C5: the zero-examiner run over one module fails it,
inserts nothing, and its recorded attempt count reaches exactly the
ceiling 10. -/
theorem spec_C5_witness :
    (generateSchedule cfgNoProfs oracleOk [moduleM] []).success = 0 ∧
    (generateSchedule cfgNoProfs oracleOk [moduleM] []).failed = [moduleM].length ∧
    (generateSchedule cfgNoProfs oracleOk [moduleM] []).inserted = [] ∧
    (∀ dtl ∈ (generateSchedule cfgNoProfs oracleOk [moduleM] []).details,
      dtl.2.1 = "failed") ∧
    10 ≤ 10 := by
  have h := spec_C5 cfgNoProfs oracleOk [moduleM] []
  exact ⟨(h.2 rfl).1, (h.2 rfl).2.1, (h.2 rfl).2.2.1, (h.2 rfl).2.2.2, h.1 10 (by decide)⟩

/-- Exhaustive description of one iteration under the real transaction
semantics: a retry that kept the stored error and rejection trace (cap
roll or unavailable resource), a retry after a rejected INSERT that marked
the transaction aborted and stored the reason, a placement that kept the
stored error and trace, or an InFailedSqlTransaction fault. -/
theorem tryStepPg_cases (cfg : Config) (oracle : InsertOracle) (pre : List Exam)
    (m : ModuleRow) (used : Nat) (err : Option String) (rejs : List String) (st : InnerSt)
    (ab : Bool) :
    (∃ (s2 : InnerSt) (ab2 : Bool),
      tryStepPg cfg oracle pre m used err rejs st ab = PgStep.next (used + 1) err rejs s2 ab2) ∨
    (∃ (rr : String) (s2 : InnerSt),
      tryStepPg cfg oracle pre m used err rejs st ab =
        PgStep.next (used + 1) (some rr) (rejs ++ [rr]) s2 true) ∨
    (∃ o : TryOut, tryStepPg cfg oracle pre m used err rejs st ab = PgStep.placed o ∧
      o.err = err ∧ o.rejs = rejs) ∨
    tryStepPg cfg oracle pre m used err rejs st ab = PgStep.fault := by
  by_cases hcap : cfg.timeSlotsPerDay ≤ st.cursor.examsToday
  · have hstep : tryStepPg cfg oracle pre m used err rejs st ab = PgStep.next (used + 1) err rejs
        (InnerSt.mk (Cursor.mk (st.cursor.date + 1) cfg.startTime 0) st.inserted st.slotTrace)
        ab := by
      simp [tryStepPg, hcap]
    exact Or.inl ⟨_, ab, hstep⟩
  · cases ab with
    | true =>
      have hstep : tryStepPg cfg oracle pre m used err rejs st true = PgStep.fault := by
        simp [tryStepPg, hcap]
      exact Or.inr (Or.inr (Or.inr hstep))
    | false =>
      cases hfp : findProf (pre ++ st.inserted) st.cursor.date st.cursor.time
          cfg.durationMinutes m.departementId cfg.profs with
      | none =>
        have hstep : tryStepPg cfg oracle pre m used err rejs st false = PgStep.next (used + 1)
            err rejs (InnerSt.mk (advanceFail cfg.startTime st.cursor) st.inserted
              (st.slotTrace ++ [(st.cursor.date, st.cursor.time)])) false := by
          simp [tryStepPg, hcap, hfp]
        exact Or.inl ⟨_, false, hstep⟩
      | some p =>
        cases hfs : findSalle (pre ++ st.inserted) st.cursor.date st.cursor.time
            cfg.durationMinutes m.studentCount cfg.salles with
        | none =>
          have hstep : tryStepPg cfg oracle pre m used err rejs st false = PgStep.next (used + 1)
              err rejs (InnerSt.mk (advanceFail cfg.startTime st.cursor) st.inserted
                (st.slotTrace ++ [(st.cursor.date, st.cursor.time)])) false := by
            simp [tryStepPg, hcap, hfp, hfs]
          exact Or.inl ⟨_, false, hstep⟩
        | some s =>
          cases ho : oracle (pre ++ st.inserted)
              (Exam.mk st.cursor.date st.cursor.time cfg.durationMinutes m.moduleId p.id s.id) with
          | some rr =>
            have hstep : tryStepPg cfg oracle pre m used err rejs st false =
                PgStep.next (used + 1) (some rr) (rejs ++ [rr])
                (InnerSt.mk (advanceFail cfg.startTime st.cursor) st.inserted
                  (st.slotTrace ++ [(st.cursor.date, st.cursor.time)])) true := by
              simp [tryStepPg, hcap, hfp, hfs, ho]
            exact Or.inr (Or.inl ⟨rr, _, hstep⟩)
          | none =>
            have hstep : tryStepPg cfg oracle pre m used err rejs st false =
                PgStep.placed (TryOut.mk true
                  (successMsg m.nom st.cursor.date st.cursor.time p.nom s.nom) err rejs used
                  (some st.cursor)
                  (InnerSt.mk (advanceSuccess cfg.startTime st.cursor)
                    (st.inserted ++ [Exam.mk st.cursor.date st.cursor.time cfg.durationMinutes
                      m.moduleId p.id s.id])
                    (st.slotTrace ++ [(st.cursor.date, st.cursor.time)]))) := by
              simp [tryStepPg, hcap, hfp, hfs, ho]
            exact Or.inr (Or.inr (Or.inl ⟨_, hstep, rfl, rfl⟩))

/-- One unfolding of the transaction-aware attempt loop on a retry. -/
theorem tryModulePg_next {cfg : Config} {oracle : InsertOracle} {pre : List Exam}
    {m : ModuleRow} {n used : Nat} {err : Option String} {rejs : List String} {st : InnerSt}
    {ab : Bool} {u : Nat} {e : Option String} {r : List String} {s2 : InnerSt} {ab2 : Bool}
    (h : tryStepPg cfg oracle pre m used err rejs st ab = PgStep.next u e r s2 ab2) :
    tryModulePg cfg oracle pre m (n + 1) used err rejs st ab =
      tryModulePg cfg oracle pre m n u e r s2 ab2 := by
  show (match tryStepPg cfg oracle pre m used err rejs st ab with
    | PgStep.fault => PgTry.fault
    | PgStep.placed o => PgTry.finished o false
    | PgStep.next u e r s2 ab2 => tryModulePg cfg oracle pre m n u e r s2 ab2) = _
  rw [h]

/-- One unfolding of the transaction-aware attempt loop on a placement. -/
theorem tryModulePg_placed {cfg : Config} {oracle : InsertOracle} {pre : List Exam}
    {m : ModuleRow} {n used : Nat} {err : Option String} {rejs : List String} {st : InnerSt}
    {ab : Bool} {o : TryOut}
    (h : tryStepPg cfg oracle pre m used err rejs st ab = PgStep.placed o) :
    tryModulePg cfg oracle pre m (n + 1) used err rejs st ab = PgTry.finished o false := by
  show (match tryStepPg cfg oracle pre m used err rejs st ab with
    | PgStep.fault => PgTry.fault
    | PgStep.placed o => PgTry.finished o false
    | PgStep.next u e r s2 ab2 => tryModulePg cfg oracle pre m n u e r s2 ab2) = _
  rw [h]

/-- One unfolding of the transaction-aware attempt loop on a fault. -/
theorem tryModulePg_fault {cfg : Config} {oracle : InsertOracle} {pre : List Exam}
    {m : ModuleRow} {n used : Nat} {err : Option String} {rejs : List String} {st : InnerSt}
    {ab : Bool}
    (h : tryStepPg cfg oracle pre m used err rejs st ab = PgStep.fault) :
    tryModulePg cfg oracle pre m (n + 1) used err rejs st ab = PgTry.fault := by
  show (match tryStepPg cfg oracle pre m used err rejs st ab with
    | PgStep.fault => PgTry.fault
    | PgStep.placed o => PgTry.finished o false
    | PgStep.next u e r s2 ab2 => tryModulePg cfg oracle pre m n u e r s2 ab2) = _
  rw [h]

/-- In the transaction-aware loop too, the stored error message of a
finished loop is the last rejection reason seen. -/
theorem tryModulePg_err (cfg : Config) (oracle : InsertOracle) (pre : List Exam)
    (m : ModuleRow) :
    ∀ (fuel used : Nat) (err : Option String) (rejs : List String) (st : InnerSt)
      (ab ab2 : Bool) (r : TryOut),
      err = rejs.getLast? →
      tryModulePg cfg oracle pre m fuel used err rejs st ab = PgTry.finished r ab2 →
      r.err = r.rejs.getLast? := by
  intro fuel
  induction fuel with
  | zero =>
    intro used err rejs st ab ab2 r herr h
    have h2 : PgTry.finished (TryOut.mk false "" err rejs used none st) ab =
        PgTry.finished r ab2 := h
    injection h2 with h3 h4
    rw [← h3]
    exact herr
  | succ n ih =>
    intro used err rejs st ab ab2 r herr h
    rcases tryStepPg_cases cfg oracle pre m used err rejs st ab with
      ⟨s2, ab3, hstep⟩ | ⟨rr, s2, hstep⟩ | ⟨o, hstep, ho1, ho2⟩ | hstep
    · rw [tryModulePg_next hstep] at h
      exact ih (used + 1) err rejs s2 ab3 ab2 r herr h
    · rw [tryModulePg_next hstep] at h
      exact ih (used + 1) (some rr) (rejs ++ [rr]) s2 true ab2 r
        (by rw [List.getLast?_concat]) h
    · rw [tryModulePg_placed hstep] at h
      injection h with h3 h4
      rw [← h3, ho1, ho2]
      exact herr
    · rw [tryModulePg_fault hstep] at h
      exact PgTry.noConfusion h

/-- Under a store that never rejects an insert, one transaction-aware
iteration agrees with the plain iteration and the transaction stays
healthy. -/
theorem tryStepPg_noRej {cfg : Config} {oracle : InsertOracle} {pre : List Exam}
    {m : ModuleRow} (hn : ∀ (l : List Exam) (b : Exam), oracle l b = none)
    (used : Nat) (err : Option String) (rejs : List String) (st : InnerSt) :
    tryStepPg cfg oracle pre m used err rejs st false =
      (match tryStep cfg oracle pre m used err rejs st with
       | StepRes.next u e r s2 => PgStep.next u e r s2 false
       | StepRes.done o => PgStep.placed o) := by
  by_cases hcap : cfg.timeSlotsPerDay ≤ st.cursor.examsToday
  · have h1 : tryStep cfg oracle pre m used err rejs st = StepRes.next (used + 1) err rejs
        (InnerSt.mk (Cursor.mk (st.cursor.date + 1) cfg.startTime 0) st.inserted
          st.slotTrace) := by
      simp [tryStep, hcap]
    rw [h1]
    simp [tryStepPg, hcap]
  · cases hfp : findProf (pre ++ st.inserted) st.cursor.date st.cursor.time
        cfg.durationMinutes m.departementId cfg.profs with
    | none =>
      have h1 : tryStep cfg oracle pre m used err rejs st = StepRes.next (used + 1) err rejs
          (InnerSt.mk (advanceFail cfg.startTime st.cursor) st.inserted
            (st.slotTrace ++ [(st.cursor.date, st.cursor.time)])) := by
        simp [tryStep, hcap, hfp]
      rw [h1]
      simp [tryStepPg, hcap, hfp]
    | some p =>
      cases hfs : findSalle (pre ++ st.inserted) st.cursor.date st.cursor.time
          cfg.durationMinutes m.studentCount cfg.salles with
      | none =>
        have h1 : tryStep cfg oracle pre m used err rejs st = StepRes.next (used + 1) err rejs
            (InnerSt.mk (advanceFail cfg.startTime st.cursor) st.inserted
              (st.slotTrace ++ [(st.cursor.date, st.cursor.time)])) := by
          simp [tryStep, hcap, hfp, hfs]
        rw [h1]
        simp [tryStepPg, hcap, hfp, hfs]
      | some s =>
        have ho : oracle (pre ++ st.inserted)
            (Exam.mk st.cursor.date st.cursor.time cfg.durationMinutes m.moduleId p.id s.id) =
            none := hn _ _
        have h1 : tryStep cfg oracle pre m used err rejs st = StepRes.done (TryOut.mk true
            (successMsg m.nom st.cursor.date st.cursor.time p.nom s.nom) err rejs used
            (some st.cursor)
            (InnerSt.mk (advanceSuccess cfg.startTime st.cursor)
              (st.inserted ++ [Exam.mk st.cursor.date st.cursor.time cfg.durationMinutes
                m.moduleId p.id s.id])
              (st.slotTrace ++ [(st.cursor.date, st.cursor.time)]))) := by
          simp [tryStep, hcap, hfp, hfs, ho]
        rw [h1]
        simp [tryStepPg, hcap, hfp, hfs, ho]

/-- Under a store that never rejects an insert, the transaction-aware
attempt loop finishes exactly as the plain loop, with a healthy
transaction. -/
theorem tryModulePg_noRej {cfg : Config} {oracle : InsertOracle} {pre : List Exam}
    {m : ModuleRow} (hn : ∀ (l : List Exam) (b : Exam), oracle l b = none) :
    ∀ (fuel used : Nat) (err : Option String) (rejs : List String) (st : InnerSt),
      tryModulePg cfg oracle pre m fuel used err rejs st false =
        PgTry.finished (tryModule cfg oracle pre m fuel used err rejs st) false := by
  intro fuel
  induction fuel with
  | zero =>
    intro used err rejs st
    rfl
  | succ n ih =>
    intro used err rejs st
    cases hts : tryStep cfg oracle pre m used err rejs st with
    | next u e r s2 =>
      have hpg : tryStepPg cfg oracle pre m used err rejs st false =
          PgStep.next u e r s2 false := by
        rw [tryStepPg_noRej hn, hts]
      rw [tryModulePg_next hpg, tryModule_next hts]
      exact ih u e r s2
    | done o =>
      have hpg : tryStepPg cfg oracle pre m used err rejs st false = PgStep.placed o := by
        rw [tryStepPg_noRej hn, hts]
      rw [tryModulePg_placed hpg, tryModule_done hts]

/-- Under a store that never rejects an insert, the transaction-aware
driver loop completes without a fault and agrees with the plain driver
loop. -/
theorem processModulesPg_noRej {cfg : Config} {oracle : InsertOracle}
    (hn : ∀ (l : List Exam) (b : Exam), oracle l b = none) :
    ∀ (ms : List ModuleRow) (st : RunState),
      processModulesPg cfg oracle ms st false =
        some (processModules cfg oracle ms st, false) := by
  intro ms
  induction ms with
  | nil =>
    intro st
    rfl
  | cons m rest ih =>
    intro st
    show (match tryModulePg cfg oracle st.preStore m 10 0 none []
        (InnerSt.mk st.cursor st.inserted st.slotTrace) false with
      | PgTry.fault => none
      | PgTry.finished r ab2 => processModulesPg cfg oracle rest (recordOutcome m st r) ab2) = _
    rw [tryModulePg_noRej hn]
    exact ih (stepModule cfg oracle m st)

/-- Claim C6 (amended): a rejected insert is itself caught inside the
per-task loop — the inner except stores the reason, advances the cursor
and counts an attempt, producing a local retry continuation rather than an
immediate run failure — but it leaves the psycopg2 transaction aborted, so
the NEXT availability query raises InFailedSqlTransaction past the
per-task loop and the run aborts; the rejection therefore does surface
past the per-task loop (see the counterexample).  A run whose store never
rejects an insert completes without any fault, returns one detail record
per task, and commits its inserts.  When a task's loop does run to its
failure record, the stored error message is the last-seen rejection
reason, and the recorded failure message is built from it (or from the
generic no-slot text when no rejection occurred). -/
theorem spec_C6 (cfg : Config) (oracle : InsertOracle) (pre : List Exam) (m : ModuleRow)
    (used : Nat) (err : Option String) (rejs : List String) (st : InnerSt)
    (modules : List ModuleRow) (init : List Exam) :
    (∀ (p : Prof) (s : Salle) (r : String),
      ¬ cfg.timeSlotsPerDay ≤ st.cursor.examsToday →
      findProf (pre ++ st.inserted) st.cursor.date st.cursor.time cfg.durationMinutes
        m.departementId cfg.profs = some p →
      findSalle (pre ++ st.inserted) st.cursor.date st.cursor.time cfg.durationMinutes
        m.studentCount cfg.salles = some s →
      oracle (pre ++ st.inserted)
        (Exam.mk st.cursor.date st.cursor.time cfg.durationMinutes m.moduleId p.id s.id) =
        some r →
      tryStepPg cfg oracle pre m used err rejs st false =
        PgStep.next (used + 1) (some r) (rejs ++ [r])
          (InnerSt.mk (advanceFail cfg.startTime st.cursor) st.inserted
            (st.slotTrace ++ [(st.cursor.date, st.cursor.time)])) true) ∧
    (¬ cfg.timeSlotsPerDay ≤ st.cursor.examsToday →
      tryStepPg cfg oracle pre m used err rejs st true = PgStep.fault) ∧
    ((∀ (l : List Exam) (b : Exam), oracle l b = none) →
      generateSchedulePg cfg oracle modules init =
        some (generateSchedule cfg oracle modules init) ∧
      durableStorePg cfg oracle modules init =
        init ++ (generateSchedule cfg oracle modules init).inserted ∧
      (generateSchedule cfg oracle modules init).details.length = modules.length) ∧
    (∀ (ab ab2 : Bool) (r : TryOut) (st1 : InnerSt),
      tryModulePg cfg oracle pre m 10 0 none [] st1 ab = PgTry.finished r ab2 →
      r.err = r.rejs.getLast?) ∧
    (∀ (st0 : RunState) (r : TryOut), r.scheduled = false →
      (recordOutcome m st0 r).details =
        st0.details ++ [(m.moduleId, "failed", failMsg m.nom r.err)]) := by
  refine ⟨?_, ?_, ?_, ?_, ?_⟩
  · intro p s r hncap hfp hfs ho
    simp [tryStepPg, hncap, hfp, hfs, ho]
  · intro hncap
    simp [tryStepPg, hncap]
  · intro hn
    refine ⟨?_, ?_, ?_⟩
    · unfold generateSchedulePg generateSchedule
      rw [processModulesPg_noRej hn]
    · unfold durableStorePg generateSchedule
      rw [processModulesPg_noRej hn]
      show (processModules cfg oracle modules (initState cfg init modules.length)).preStore ++
        (processModules cfg oracle modules (initState cfg init modules.length)).inserted = _
      rw [processModules_preStore]
      rfl
    · unfold generateSchedule
      have h := (processModules_report cfg oracle modules
        (initState cfg init modules.length)).2.2.1
      have hlen := congrArg List.length h
      rw [List.length_map, List.length_append, List.length_map, List.length_map] at hlen
      refine hlen.trans ?_
      show 0 + modules.length = modules.length
      omega
  · intro ab ab2 r st1 h
    exact tryModulePg_err cfg oracle pre m 10 0 none [] st1 ab ab2 r rfl h
  · intro st0 r hs
    rw [recordOutcome_false hs]

/-- Witness for spec_C6: a never-rejecting run completes, agrees with the
plain model and commits its insert, and with an aborted transaction the
availability query at the 09:00 slot faults. -/
theorem spec_C6_witness :
    (generateSchedulePg cfgMorning oracleOk [moduleM] [] =
      some (generateSchedule cfgMorning oracleOk [moduleM] []) ∧
    durableStorePg cfgMorning oracleOk [moduleM] [] =
      [] ++ (generateSchedule cfgMorning oracleOk [moduleM] []).inserted ∧
    (generateSchedule cfgMorning oracleOk [moduleM] []).details.length = [moduleM].length) ∧
    tryStepPg cfgMorning oracleOk [] moduleM 0 none []
      (InnerSt.mk (Cursor.mk 0 540 0) [] []) true = PgStep.fault := by
  have h := spec_C6 cfgMorning oracleOk [] moduleM 0 none []
    (InnerSt.mk (Cursor.mk 0 540 0) [] []) [moduleM] []
  exact ⟨h.2.2.1 (fun l b => rfl), h.2.1 (by decide)⟩

/-- Counterexample to claim C6 as stated: under an always-rejecting store
the first iteration catches the rejection locally (attempt counted, reason
stored, cursor advanced, transaction aborted), but the very next
availability query raises InFailedSqlTransaction and the run ABORTS — the
rejection surfaces past the per-task loop, the caller gets no Scheduling
Result, and the rollback leaves the store at its pre-run state. -/
theorem spec_C6_counterexample :
    (generateSchedulePg cfgMorning oracleRej [moduleM] []).isNone = true ∧
    durableStorePg cfgMorning oracleRej [moduleM] [] = [] ∧
    tryStepPg cfgMorning oracleRej [] moduleM 0 none []
      (InnerSt.mk (Cursor.mk 0 540 0) [] []) false =
      PgStep.next 1 (some "conflit") ["conflit"]
        (InnerSt.mk (Cursor.mk 0 660 0) [] [(0, 540)]) true ∧
    tryStepPg cfgMorning oracleRej [] moduleM 1 (some "conflit") ["conflit"]
      (InnerSt.mk (Cursor.mk 0 660 0) [] [(0, 540)]) true = PgStep.fault := by
  decide

/-- Claim C7 (amended): generate_schedule runs on a psycopg2 connection
without autocommit, commits only at the end of a complete run, and its
outer exception handler calls conn.rollback() before re-raising; therefore
a collaborator fault that aborts the run after any number of processed
tasks leaves the durable booking store exactly equal to its pre-run state —
every booking inserted during the run is rolled back, the opposite of the
claimed no-whole-run-rollback behaviour (see the counterexample). -/
theorem spec_C7 (cfg : Config) (oracle : InsertOracle) (modules : List ModuleRow)
    (init : List Exam) (k : Nat) :
    generateScheduleFaulted cfg oracle modules init k = init := by
  unfold generateScheduleFaulted
  rw [processModules_preStore]
  rfl

/-- Counterexample to claim C7 as stated: with two pending modules and a
fault after the first is processed, the run has inserted the first
module's booking, yet the durable store after the rollback is empty — the
booking of the already-processed task does NOT remain committed. -/
theorem spec_C7_counterexample :
    (processModules cfgMorning oracleOk ([moduleM, moduleN].take 1)
      (initState cfgMorning [] 2)).inserted = [Exam.mk 0 540 120 1 1 1] ∧
    generateScheduleFaulted cfgMorning oracleOk [moduleM, moduleN] [] 1 = [] := by
  decide

/-- Claim C8 (amended): provided the configured starting time is before
22:00 (so that the two-hour advance never wraps past midnight), the
sequence of slot attempts of a whole run — across task boundaries — is
strictly increasing in (date, time), and the cursor is never reset
mid-run.  With a starting time of 22:00 or later the Python time
arithmetic (datetime.combine + 2h).time() wraps and the cursor moves
backwards (see the counterexample). -/
theorem spec_C8 (cfg : Config) (oracle : InsertOracle) (modules : List ModuleRow)
    (init : List Exam) (h : cfg.startTime < 1320) :
    List.Chain' slotLt (generateSchedule cfg oracle modules init).slotTrace := by
  unfold generateSchedule
  exact (processModules_trace cfg oracle h modules (initState cfg init modules.length) h
    ⟨List.chain'_nil, fun x hx => absurd hx (List.not_mem_nil x)⟩).2.1

/-- Witness for spec_C8: a two-module morning run produces a strictly
increasing attempt trace. -/
theorem spec_C8_witness :
    List.Chain' slotLt (generateSchedule cfgMorning oracleOk [moduleM, moduleN] []).slotTrace :=
  spec_C8 cfgMorning oracleOk [moduleM, moduleN] [] (by decide)

/-- Counterexample to claim C8 as stated: a run starting at 23:00 with no
examiner attempts slot (0, 23:00) and then slot (0, 01:00) — the advance
wrapped past midnight without changing the date, so the attempt sequence
is not strictly increasing. -/
theorem spec_C8_counterexample :
    ¬ List.Chain' slotLt (generateSchedule cfgNoProfs oracleOk [moduleM] []).slotTrace := by
  intro hch
  have htr : (generateSchedule cfgNoProfs oracleOk [moduleM] []).slotTrace =
      [(0, 1380), (0, 60), (0, 180), (0, 300), (0, 420), (0, 540), (0, 660), (0, 780),
        (0, 900), (0, 1020)] := by decide
  rw [htr] at hch
  exact absurd (List.chain'_cons.mp hch).1 (by decide)

/-- Claim C9 (amended): the daily slot counter is never increased by a
failed attempt loop; a successful loop ends with the cursor equal to the
success advance applied at the placement slot, and that advance increments
the counter exactly when it stays on the same day — when it rolls to the
next day (new time at 18:00 or later) it resets the counter to 0 instead
of incrementing it, which is where the claim as stated fails (see the
counterexample). -/
theorem spec_C9 (cfg : Config) (oracle : InsertOracle) (pre : List Exam) (m : ModuleRow)
    (fuel used : Nat) (err : Option String) (rejs : List String) (st : InnerSt) :
    ((tryModule cfg oracle pre m fuel used err rejs st).scheduled = false →
      (tryModule cfg oracle pre m fuel used err rejs st).st.cursor.examsToday ≤
        st.cursor.examsToday) ∧
    ((tryModule cfg oracle pre m fuel used err rejs st).scheduled = true →
      ∃ c : Cursor,
        (tryModule cfg oracle pre m fuel used err rejs st).placedCursor = some c ∧
        c.examsToday ≤ st.cursor.examsToday ∧
        (tryModule cfg oracle pre m fuel used err rejs st).st.cursor =
          advanceSuccess cfg.startTime c) ∧
    (∀ (c : Cursor) (s : Nat),
      ((c.time + 120) % 1440 < 1080 →
        (advanceSuccess s c).examsToday = c.examsToday + 1 ∧
        (advanceFail s c).examsToday = c.examsToday) ∧
      (1080 ≤ (c.time + 120) % 1440 →
        (advanceSuccess s c).examsToday = 0 ∧ (advanceFail s c).examsToday = 0)) := by
  obtain ⟨hf, ht⟩ := tryModule_counter cfg oracle pre m fuel used err rejs st
  exact ⟨fun h => (hf h).2, ht, fun c s => advance_examsToday_cases s c⟩

/-- Witness for spec_C9: a successful morning placement exposes its
placement cursor and the success advance. -/
theorem spec_C9_witness :
    ∃ c : Cursor,
      (tryModule cfgMorning oracleOk [] moduleM 10 0 none []
        (InnerSt.mk (Cursor.mk 0 540 0) [] [])).placedCursor = some c ∧
      c.examsToday ≤ (InnerSt.mk (Cursor.mk 0 540 0) [] []).cursor.examsToday ∧
      (tryModule cfgMorning oracleOk [] moduleM 10 0 none []
        (InnerSt.mk (Cursor.mk 0 540 0) [] [])).st.cursor =
        advanceSuccess cfgMorning.startTime c :=
  (spec_C9 cfgMorning oracleOk [] moduleM 10 0 none []
    (InnerSt.mk (Cursor.mk 0 540 0) [] [])).2.1 (by decide)

/-- Counterexample to claim C9 as stated: a run starting 17:00 places its
single module (success = 1), but the post-success advance rolls to the next
day and RESETS the daily counter to 0 — the counter is not incremented
after this successful booking, while the claim's mark_consumed-then-advance
composition (whose advance checks the pre-advance time 17:00 < 18:00 and a
counter of 1 below the cap, hence does not reset) would leave it at 1. -/
theorem spec_C9_counterexample :
    (generateSchedule cfgEvening oracleOk [moduleM] []).success = 1 ∧
    (generateSchedule cfgEvening oracleOk [moduleM] []).cursor.examsToday = 0 ∧
    (generateSchedule cfgEvening oracleOk [moduleM] []).cursor.date = 1 := by
  decide

/-- Claim C10: the reported success count plus failed count equals the
reported total, which is the number of pending tasks; the details list has
exactly one record per pending task carrying that task's identity, in the
(ascending) order of the task list; every outcome tag is success or
failed; and the two counters equal the respective numbers of matching
detail records. -/
theorem spec_C10 (cfg : Config) (oracle : InsertOracle) (modules : List ModuleRow)
    (init : List Exam)
    (hsort : List.Pairwise (fun a b => a < b) (modules.map (fun mm => mm.moduleId))) :
    (generateSchedule cfg oracle modules init).success +
      (generateSchedule cfg oracle modules init).failed =
      (generateSchedule cfg oracle modules init).total ∧
    (generateSchedule cfg oracle modules init).total = modules.length ∧
    (generateSchedule cfg oracle modules init).details.map (fun dtl => dtl.1) =
      modules.map (fun mm => mm.moduleId) ∧
    List.Pairwise (fun a b => a < b)
      ((generateSchedule cfg oracle modules init).details.map (fun dtl => dtl.1)) ∧
    (∀ dtl ∈ (generateSchedule cfg oracle modules init).details,
      dtl.2.1 = "success" ∨ dtl.2.1 = "failed") ∧
    (generateSchedule cfg oracle modules init).details.countP
      (fun dtl => dtl.2.1 == "success") = (generateSchedule cfg oracle modules init).success ∧
    (generateSchedule cfg oracle modules init).details.countP
      (fun dtl => dtl.2.1 == "failed") = (generateSchedule cfg oracle modules init).failed := by
  unfold generateSchedule
  obtain ⟨i1, i2, i3, i4, i5, i6⟩ :=
    processModules_report cfg oracle modules (initState cfg init modules.length)
  have hmap : (processModules cfg oracle modules
      (initState cfg init modules.length)).details.map (fun dtl => dtl.1) =
      modules.map (fun mm => mm.moduleId) := by
    rw [i3]
    show ([] : List (Nat × String × String)).map (fun dtl => dtl.1) ++
      modules.map (fun mm => mm.moduleId) = modules.map (fun mm => mm.moduleId)
    simp
  refine ⟨?_, i1, hmap, ?_, ?_, i5 rfl, i6 rfl⟩
  · rw [i2, i1]
    show 0 + 0 + modules.length = (initState cfg init modules.length).total
    show 0 + 0 + modules.length = modules.length
    omega
  · rw [hmap]
    exact hsort
  · intro dtl hd
    rcases i4 dtl hd with hmem | hout
    · exact absurd hmem (List.not_mem_nil dtl)
    · exact hout

/-- Witness for spec_C10 at a concrete two-module run. -/
theorem spec_C10_witness :
    (generateSchedule cfgMorning oracleOk [moduleM, moduleN] []).success +
      (generateSchedule cfgMorning oracleOk [moduleM, moduleN] []).failed =
      (generateSchedule cfgMorning oracleOk [moduleM, moduleN] []).total ∧
    (generateSchedule cfgMorning oracleOk [moduleM, moduleN] []).total =
      [moduleM, moduleN].length ∧
    (generateSchedule cfgMorning oracleOk [moduleM, moduleN] []).details.map
      (fun dtl => dtl.1) = [moduleM, moduleN].map (fun mm => mm.moduleId) ∧
    List.Pairwise (fun a b => a < b)
      ((generateSchedule cfgMorning oracleOk [moduleM, moduleN] []).details.map
        (fun dtl => dtl.1)) ∧
    (∀ dtl ∈ (generateSchedule cfgMorning oracleOk [moduleM, moduleN] []).details,
      dtl.2.1 = "success" ∨ dtl.2.1 = "failed") ∧
    (generateSchedule cfgMorning oracleOk [moduleM, moduleN] []).details.countP
      (fun dtl => dtl.2.1 == "success") =
      (generateSchedule cfgMorning oracleOk [moduleM, moduleN] []).success ∧
    (generateSchedule cfgMorning oracleOk [moduleM, moduleN] []).details.countP
      (fun dtl => dtl.2.1 == "failed") =
      (generateSchedule cfgMorning oracleOk [moduleM, moduleN] []).failed :=
  spec_C10 cfgMorning oracleOk [moduleM, moduleN] [] (by decide)

end Sched
